import Mathlib

/-!
Verification development for the KResearch core: the API key rotation
service, the Gemini / OpenRouter request executors with their retry and
backoff policy, the planner-turn sanitizer and conversational planner loop,
and the multi-engine web-search aggregator.

The TypeScript source is embedded shallowly:

* JavaScript string builtins (`trim`, `toLowerCase`, `split`, `includes`,
  `substring`) are modelled by structural functions over the character list
  of a `String`, so that every definition evaluates inside the kernel.
* Stateful services become explicit state passing; the network, the DOM
  parsers and the LLM are oracles (function-typed parameters), so theorems
  quantify over every possible behaviour of those components.
* Thrown JavaScript exceptions are `Except` values; a `try/catch` is a
  `match` on that value.
-/

/-! ## JavaScript string builtins, modelled structurally -/

/-- Model of JavaScript whitespace (the characters relevant to this code
base: space, tab, line feed, carriage return). -/
def jsWhitespace (ch : Char) : Bool :=
  ch = ' ' || ch = '\t' || ch = '\n' || ch = '\r'

/-- Model of `String.prototype.toLowerCase` (ASCII case folding; the source
only compares ASCII engine names, actions and search terms). -/
def jsToLower (s : String) : String :=
  ⟨s.data.map Char.toLower⟩

/-- Model of `String.prototype.trim`: drop leading and trailing whitespace. -/
def jsTrim (s : String) : String :=
  ⟨((s.data.dropWhile jsWhitespace).reverse.dropWhile jsWhitespace).reverse⟩

/-- Model of `String.prototype.substring(0, n)`. -/
def jsTake (n : Nat) (s : String) : String :=
  ⟨s.data.take n⟩

/-- Split a character list at every character satisfying `p`; empty
segments are kept, exactly as JavaScript `split` keeps them. -/
def splitPred (p : Char → Bool) : List Char → List (List Char)
  | [] => [[]]
  | x :: xs =>
    match splitPred p xs with
    | [] => [[]]
    | g :: gs => if p x then [] :: g :: gs else (x :: g) :: gs

/-- Model of `String.prototype.split(c)` for a single-character separator. -/
def jsSplitOn (c : Char) (s : String) : List String :=
  (splitPred (fun ch => ch = c) s.data).map (fun l => (⟨l⟩ : String))

/-- Model of `Array.prototype.join(sep)`. -/
def joinSep (sep : String) : List String → String
  | [] => ""
  | x :: rest => rest.foldl (fun acc y => acc ++ sep ++ y) x

/-- Does the first character list start with the second? -/
def startsWithSeq : List Char → List Char → Bool
  | _, [] => true
  | [], _ :: _ => false
  | a :: as, b :: bs => a = b && startsWithSeq as bs

/-- Does the first character list contain the second as a contiguous run? -/
def containsSeq (small : List Char) : List Char → Bool
  | [] => startsWithSeq [] small
  | c :: rest => startsWithSeq (c :: rest) small || containsSeq small rest

/-- Model of `String.prototype.includes`: substring containment on the
underlying character lists. -/
def jsIncludes (s sub : String) : Bool :=
  containsSeq sub.data s.data

/-! ## ApiKeyService (`apiKeyService.ts`)

State of the service: the parsed user key pool and the rotation cursor.
`localStorage` persistence and the environment-variable branch only decide
the initial pool contents and are not modelled; `currentKeyIndex` starts
at `-1` and is only ever set to `-1` (by `reset`) or to a value of
`(currentKeyIndex + 1) % keys.length`, so the dividend `currentKeyIndex + 1`
is never negative and the JavaScript `%` agrees with the Euclidean `%`
used here. -/

structure ApiKeyService where
  userApiKeys : List String
  currentKeyIndex : Int

/-- `getApiKeys()` returns the current pool. -/
def ApiKeyService.getApiKeys (s : ApiKeyService) : List String :=
  s.userApiKeys

/-- `parseKeys`: split the stored string on newlines and commas, trim each
piece, and keep the non-empty ones.  (JavaScript splits on *runs* of the
separator characters; splitting on single characters instead only adds
empty segments, which the final filter removes, so the results agree.) -/
def parseKeys (keysString : String) : List String :=
  (((splitPred (fun ch => ch = '\n' || ch = ',') keysString.data).map
      (fun l => (⟨l⟩ : String))).map jsTrim).filter (fun k => 0 < k.length)

/-- `getNextApiKey()`: advance the cursor modulo the *current* pool length,
then index.  Returns `undefined` (here `none`) exactly on an empty pool. -/
def ApiKeyService.getNextApiKey (s : ApiKeyService) : Option String × ApiKeyService :=
  let keys := s.getApiKeys
  if keys.length = 0 then
    (none, s)
  else
    let i : Int := (s.currentKeyIndex + 1) % (keys.length : Int)
    (keys[i.toNat]?, { s with currentKeyIndex := i })

/-- `setApiKeys(keysString)` (user-key path): replace the pool wholesale;
the rotation cursor is left untouched. -/
def ApiKeyService.setApiKeys (s : ApiKeyService) (keysString : String) : ApiKeyService :=
  { s with userApiKeys := parseKeys keysString }

/-- `reset()`: rewind the cursor so the next call serves index 0. -/
def ApiKeyService.reset (s : ApiKeyService) : ApiKeyService :=
  { s with currentKeyIndex := -1 }

/-- Outputs of `n` consecutive `getNextApiKey()` calls, threading the
service state. -/
def runNextApiKeys (s : ApiKeyService) : Nat → List (Option String)
  | 0 => []
  | n + 1 =>
    let r := s.getNextApiKey
    r.1 :: runNextApiKeys r.2 n

lemma runNextApiKeys_formula (keys : List String) (hk : ¬ keys.length = 0) (n : Nat) :
    ∀ (i0 : Int) (c : Nat), i0 + 1 = (c : Int) →
    runNextApiKeys ⟨keys, i0⟩ n =
      (List.range n).map (fun t => keys[(c + t) % keys.length]?) := by
  induction n with
  | zero => intro i0 c hc; simp [runNextApiKeys]
  | succ n ih =>
    intro i0 c hc
    have hmod : (i0 + 1) % (keys.length : Int) = ((c % keys.length : Nat) : Int) := by
      rw [hc]; exact (Int.natCast_mod c keys.length).symm
    simp only [runNextApiKeys, ApiKeyService.getNextApiKey, ApiKeyService.getApiKeys,
      if_neg hk, hmod, Int.toNat_natCast]
    have htail := ih ((c % keys.length : Nat) : Int) (c % keys.length + 1) (by push_cast; ring)
    rw [htail, List.range_succ_eq_map, List.map_cons, List.map_map]
    have hmap : (List.map (fun t => keys[(c % keys.length + 1 + t) % keys.length]?) (List.range n))
        = List.map ((fun t => keys[(c + t) % keys.length]?) ∘ Nat.succ) (List.range n) := by
      apply List.map_congr_left
      intro t ht
      show keys[(c % keys.length + 1 + t) % keys.length]? = keys[(c + (t + 1)) % keys.length]?
      have h2 : c % keys.length + 1 + t = c % keys.length + (1 + t) := by omega
      have h3 : c + (1 + t) = c + (t + 1) := by omega
      rw [h2, Nat.mod_add_mod, h3]
    rw [hmap]
    exact congrArg₂ List.cons (by rw [Nat.add_zero]) rfl

lemma shift_mod_perm (k : Nat) (hk : 0 < k) (c : Nat) :
    ((List.range k).map (fun t => (c + t) % k)).Perm (List.range k) := by
  have hnd : ((List.range k).map (fun t => (c + t) % k)).Nodup := by
    refine List.Nodup.map_on ?_ (List.nodup_range k)
    intro a ha b hb hab
    simp only [List.mem_range] at ha hb
    have h1 : (c + a) % k = (c + b) % k := hab
    have h2 : a % k = b % k := Nat.ModEq.add_left_cancel' c h1
    rwa [Nat.mod_eq_of_lt ha, Nat.mod_eq_of_lt hb] at h2
  have hsub : ((List.range k).map (fun t => (c + t) % k)) ⊆ List.range k := by
    intro x hx
    simp only [List.mem_map, List.mem_range] at hx
    obtain ⟨t, _, rfl⟩ := hx
    exact List.mem_range.mpr (Nat.mod_lt _ hk)
  refine List.Subperm.perm_of_length_le (List.subperm_of_subset hnd hsub) ?_
  simp

lemma countP_shift_mod_one (k : Nat) (hk : 0 < k) (c j : Nat) (hj : j < k) :
    (List.range k).countP (fun t => (c + t) % k == j) = 1 := by
  have h1 : (List.range k).countP (fun t => (c + t) % k == j)
      = ((List.range k).map (fun t => (c + t) % k)).countP (fun x => x == j) := by
    rw [List.countP_map]; rfl
  rw [h1]
  have h2 : ((List.range k).map (fun t => (c + t) % k)).countP (fun x => x == j)
      = List.count j ((List.range k).map (fun t => (c + t) % k)) := rfl
  rw [h2, (shift_mod_perm k hk c).count_eq]
  exact List.count_eq_one_of_mem (List.nodup_range k) (List.mem_range.mpr hj)

lemma countP_shift_mod (k : Nat) (hk : 0 < k) (c j : Nat) (hj : j < k) (m : Nat) :
    (List.range (m * k)).countP (fun t => (c + t) % k == j) = m := by
  induction m with
  | zero => simp
  | succ m ih =>
    have hs : (m + 1) * k = m * k + k := by ring
    rw [hs, List.range_add, List.countP_append, List.countP_map]
    have hcg : ∀ t ∈ List.range k,
        (((fun t => (c + t) % k == j) ∘ (fun x => m * k + x)) t = true
          ↔ ((fun t => (c + t) % k == j) t = true)) := by
      intro t ht
      simp only [Function.comp]
      have h4 : c + (m * k + t) = c + t + m * k := by ring
      rw [h4, Nat.add_mul_mod_self_right]
    have he := List.countP_congr hcg
    rw [he, ih, countP_shift_mod_one k hk c j hj]

lemma runNextApiKeys_count (keys : List String) (hnd : keys.Nodup) (hk : ¬ keys.length = 0)
    (i0 : Int) (c : Nat) (hc : i0 + 1 = (c : Int)) (m : Nat) (j : Nat) (hj : j < keys.length) :
    (runNextApiKeys ⟨keys, i0⟩ (m * keys.length)).count (some keys[j]) = m := by
  rw [runNextApiKeys_formula keys hk (m * keys.length) i0 c hc]
  have h1 : (List.map (fun t => keys[(c + t) % keys.length]?) (List.range (m * keys.length))).count
      (some keys[j])
      = (List.range (m * keys.length)).countP
          (fun t => keys[(c + t) % keys.length]? == some keys[j]) := by
    rw [List.count, List.countP_map]; rfl
  rw [h1]
  have h2 : ∀ t ∈ List.range (m * keys.length),
      ((keys[(c + t) % keys.length]? == some keys[j]) = true
        ↔ (((c + t) % keys.length == j) = true)) := by
    intro t ht
    have hlt : (c + t) % keys.length < keys.length := Nat.mod_lt _ (Nat.pos_of_ne_zero hk)
    rw [List.getElem?_eq_getElem hlt]
    simp only [beq_iff_eq, Option.some.injEq]
    rw [hnd.getElem_inj_iff]
  rw [List.countP_congr h2]
  exact countP_shift_mod keys.length (Nat.pos_of_ne_zero hk) c j hj m

/-- C7: for a non-empty pool with distinct keys that is not modified in
between, N = m * k consecutive `getNextApiKey()` calls return every key
exactly m times, and the first call after `reset()` returns the first key
of the pool. -/
theorem keyRotation_roundRobin_fair (s : ApiKeyService) (m : Nat)
    (hne : ¬ s.userApiKeys = []) (hnd : s.userApiKeys.Nodup)
    (hidx : -1 ≤ s.currentKeyIndex) :
    (∀ key ∈ s.userApiKeys,
        (runNextApiKeys s (m * s.userApiKeys.length)).count (some key) = m) ∧
    s.reset.getNextApiKey.1 = s.userApiKeys[0]? := by
  obtain ⟨keys, i0⟩ := s
  dsimp only at hne hnd hidx ⊢
  have hk : ¬ keys.length = 0 := by simpa using hne
  constructor
  · intro key hkey
    obtain ⟨j, hj, rfl⟩ := List.getElem_of_mem hkey
    exact runNextApiKeys_count keys hnd hk i0 (i0 + 1).toNat (by omega) m j hj
  · simp only [ApiKeyService.reset, ApiKeyService.getNextApiKey, ApiKeyService.getApiKeys,
      if_neg hk]
    norm_num

/-- C7 witness: a concrete two-key pool served fairly over four calls. -/
theorem keyRotation_roundRobin_fair_witness :
    ((runNextApiKeys ⟨[("a"), ("b")], -1⟩ (2 * 2)).count (some ("a")) = 2 ∧
      (runNextApiKeys ⟨[("a"), ("b")], -1⟩ (2 * 2)).count (some ("b")) = 2) ∧
    (ApiKeyService.reset ⟨[("a"), ("b")], -1⟩).getNextApiKey.1 = some ("a") := by
  have h := keyRotation_roundRobin_fair ⟨[("a"), ("b")], -1⟩ 2
    (by decide) (by decide) (by decide)
  exact ⟨⟨h.1 ("a") (by decide), h.1 ("b") (by decide)⟩, h.2⟩

/-- C10: whenever the pool is non-empty, `getNextApiKey()` returns a member
of the current pool (the cursor is reduced modulo the current length before
indexing, so the result is defined even after the pool shrank); it returns
`undefined` exactly on the empty pool, and `setApiKeys` replaces the pool
without touching the cursor. -/
theorem getNextApiKey_safe (s : ApiKeyService) (hidx : -1 ≤ s.currentKeyIndex) :
    (s.getNextApiKey.1 = none ↔ s.userApiKeys = []) ∧
    (¬ s.userApiKeys = [] →
      ∃ key, s.getNextApiKey.1 = some key ∧ key ∈ s.userApiKeys) ∧
    (∀ ks, (s.setApiKeys ks).currentKeyIndex = s.currentKeyIndex) := by
  obtain ⟨keys, i0⟩ := s
  by_cases hk : keys.length = 0
  · have hnil : keys = [] := List.length_eq_zero.mp hk
    subst hnil
    simp [ApiKeyService.getNextApiKey, ApiKeyService.getApiKeys, ApiKeyService.setApiKeys]
  · have hkey : ∃ key,
        (ApiKeyService.getNextApiKey ⟨keys, i0⟩).1 = some key ∧ key ∈ keys := by
      have hnn : (0 : Int) ≤ (i0 + 1) % (keys.length : Int) :=
        Int.emod_nonneg _ (by exact_mod_cast hk)
      have hlt : (i0 + 1) % (keys.length : Int) < (keys.length : Int) :=
        Int.emod_lt_of_pos _ (by exact_mod_cast Nat.pos_of_ne_zero hk)
      have hlt2 : ((i0 + 1) % (keys.length : Int)).toNat < keys.length := by omega
      refine ⟨keys[((i0 + 1) % (keys.length : Int)).toNat], ?_, List.getElem_mem hlt2⟩
      simp only [ApiKeyService.getNextApiKey, ApiKeyService.getApiKeys, if_neg hk]
      exact List.getElem?_eq_getElem hlt2
    refine ⟨?_, fun _ => hkey, fun ks => rfl⟩
    obtain ⟨key, hkeq, _⟩ := hkey
    constructor
    · intro hnone; rw [hkeq] at hnone; cases hnone
    · intro hnil; exact absurd (congrArg List.length hnil) hk

/-- C10 witness: a pool of two keys with a stale cursor from a larger,
since-replaced pool still serves a member; the empty pool serves none. -/
theorem getNextApiKey_safe_witness :
    (∃ key, (ApiKeyService.getNextApiKey ⟨[("a"), ("b")], 7⟩).1 = some key ∧
      key ∈ [("a"), ("b")]) ∧
    (ApiKeyService.getNextApiKey ⟨[], 7⟩).1 = none :=
  ⟨(getNextApiKey_safe ⟨[("a"), ("b")], 7⟩ (by decide)).2.1 (by decide),
    (getNextApiKey_safe ⟨[], 7⟩ (by decide)).1.mpr rfl⟩

/-! ## Request executors (`geminiClient.ts`)

Network calls are an oracle indexed by the attempt number.  An attempt
either yields a successful response value or throws an error; an error
carries the HTTP status (when one was attached), a message, and — for the
Gemini REST shape — the optional `RetryInfo.retryDelay` string found in
`error.data.error.details`. -/

structure ApiError where
  status : Option Nat
  message : String
  retryDelay : Option String
deriving DecidableEq

/-- Outcome of one wire call: resolve with a value or throw an error. -/
inductive ApiAttempt (α : Type) where
  | ok (v : α)
  | err (e : ApiError)

/-- What an executor call produces for its caller. -/
inductive ExecOutcome (α : Type) where
  | ok (v : α)
  | noKeys
  | invalidRequest
  | allKeysFailed (lastError : Option ApiError)

/-- Observable trace of one executor call: its outcome, how many wire
attempts were made, and the backoff sleeps (in ms) performed along the way. -/
structure ExecTrace (α : Type) where
  outcome : ExecOutcome α
  attemptsMade : Nat
  sleepsMs : List Nat

/-- First maximal run of decimal digits in a character list — the model of
`retryDelay.match(/(\d+)/)`. -/
def firstDigitRun : List Char → Option (List Char)
  | [] => none
  | c :: cs => if c.isDigit then some (c :: cs.takeWhile Char.isDigit) else firstDigitRun cs

/-- Decimal value of a digit run — the model of `parseInt(..., 10)`. -/
def digitsToNat (ds : List Char) : Nat :=
  ds.foldl (fun n c => 10 * n + (c.toNat - 48)) 0

/-- The machine-readable retry-after duration (in seconds) carried by an
error payload, if any: the `RetryInfo.retryDelay` field parsed for its
first digit run. -/
def retryInfoSeconds (e : ApiError) : Option Nat :=
  match e.retryDelay with
  | none => none
  | some s =>
    match firstDigitRun s.data with
    | none => none
    | some ds => some (digitsToNat ds)

/-- Gemini executor backoff on HTTP 429 at a given attempt number (1-based):
`2000ms × cycle` by default, where `cycle = floor((attempt-1)/keyCount) + 1`;
when the payload carries a retry-after duration, that duration plus a fixed
500 ms buffer is used instead. -/
def geminiBackoffMs (keyCount attempt : Nat) (e : ApiError) : Nat :=
  match retryInfoSeconds e with
  | some secs => secs * 1000 + 500
  | none => 2000 * ((attempt - 1) / keyCount + 1)

/-- OpenRouter executor backoff on HTTP 429: always `2000ms × cycle`; the
error payload is never inspected for a retry-after duration. -/
def openRouterBackoffMs (keyCount attempt : Nat) (_e : ApiError) : Nat :=
  2000 * ((attempt - 1) / keyCount + 1)

/-- The retry loop of `executeWithRetry`: one iteration per remaining
attempt.  A falsy key (no key, or an empty-string key) skips the wire call
but still consumes the attempt; a thrown error with status 429 sleeps per
`geminiBackoffMs` before the next attempt.  On success the loop returns at
once (the rotator reset that follows success does not affect the trace). -/
def geminiRetryLoop (oracle : Nat → ApiAttempt α) (keyCount : Nat) :
    Nat → Nat → ApiKeyService → Option ApiError → ExecTrace α
  | 0, _, _, lastError => ⟨.allKeysFailed lastError, 0, []⟩
  | r + 1, attempt, svc, lastError =>
    let drawn := svc.getNextApiKey
    match drawn.1 with
    | none => geminiRetryLoop oracle keyCount r (attempt + 1) drawn.2 lastError
    | some key =>
      if key = "" then geminiRetryLoop oracle keyCount r (attempt + 1) drawn.2 lastError
      else
        match oracle attempt with
        | .ok v => ⟨.ok v, 1, []⟩
        | .err e =>
          let rest := geminiRetryLoop oracle keyCount r (attempt + 1) drawn.2 (some e)
          if e.status = some 429 then
            ⟨rest.outcome, rest.attemptsMade + 1,
              geminiBackoffMs keyCount attempt e :: rest.sleepsMs⟩
          else
            ⟨rest.outcome, rest.attemptsMade + 1, rest.sleepsMs⟩

/-- `executeWithRetry` (Gemini): guard the empty pool and the invalid
model/operation, then run `keyCount × 3` attempts and fail with
`AllKeysFailedError` carrying the last observed error. -/
def executeWithRetry (requestValid : Bool) (svc : ApiKeyService)
    (oracle : Nat → ApiAttempt α) : ExecTrace α :=
  if svc.getApiKeys.length = 0 then ⟨.noKeys, 0, []⟩
  else if !requestValid then ⟨.invalidRequest, 0, []⟩
  else geminiRetryLoop oracle svc.getApiKeys.length (svc.getApiKeys.length * 3) 1 svc none

/-- The retry loop of `executeOpenRouterWithRetry`.  Each attempt first
tries the chat-completions call; if it throws, a single fallback against
the `/completions` endpoint is tried, and only when that also fails does
the attempt count as failed — with `lastError` recording the *primary*
error.  A primary 429 sleeps per `openRouterBackoffMs`. -/
def openRouterRetryLoop (oracle : Nat → ApiAttempt α × ApiAttempt α) (keyCount : Nat) :
    Nat → Nat → ApiKeyService → Option ApiError → ExecTrace α
  | 0, _, _, lastError => ⟨.allKeysFailed lastError, 0, []⟩
  | r + 1, attempt, svc, lastError =>
    let drawn := svc.getNextApiKey
    match drawn.1 with
    | none => openRouterRetryLoop oracle keyCount r (attempt + 1) drawn.2 lastError
    | some key =>
      if key = "" then openRouterRetryLoop oracle keyCount r (attempt + 1) drawn.2 lastError
      else
        match (oracle attempt).1 with
        | .ok v => ⟨.ok v, 1, []⟩
        | .err e =>
          match (oracle attempt).2 with
          | .ok v => ⟨.ok v, 1, []⟩
          | .err _fallbackErr =>
            let rest := openRouterRetryLoop oracle keyCount r (attempt + 1) drawn.2 (some e)
            if e.status = some 429 then
              ⟨rest.outcome, rest.attemptsMade + 1,
                openRouterBackoffMs keyCount attempt e :: rest.sleepsMs⟩
            else
              ⟨rest.outcome, rest.attemptsMade + 1, rest.sleepsMs⟩

/-- `executeOpenRouterWithRetry`: guard the empty pool, then run
`keyCount × 3` attempts (primary call plus `/completions` fallback each)
and fail with `AllKeysFailedError` carrying the last observed error. -/
def executeOpenRouterWithRetry (svc : ApiKeyService)
    (oracle : Nat → ApiAttempt α × ApiAttempt α) : ExecTrace α :=
  if svc.getApiKeys.length = 0 then ⟨.noKeys, 0, []⟩
  else openRouterRetryLoop oracle svc.getApiKeys.length (svc.getApiKeys.length * 3) 1 svc none

/-- The sleeps performed by a retry loop in which every attempt fails,
attempt numbers starting at `attempt`. -/
def allFailSleeps (delayFn : Nat → ApiError → Nat) (errF : Nat → ApiError)
    (attempt : Nat) : Nat → List Nat
  | 0 => []
  | r + 1 =>
    (if (errF attempt).status = some 429 then [delayFn attempt (errF attempt)] else [])
      ++ allFailSleeps delayFn errF (attempt + 1) r

lemma geminiRetryLoop_all_fail (α : Type) (errF : Nat → ApiError) (keys : List String)
    (hk : ¬ keys.length = 0) (hne : ∀ k ∈ keys, ¬ k = "") (kc : Nat) :
    ∀ (r attempt : Nat) (i0 : Int) (last : Option ApiError),
    @geminiRetryLoop α (fun a => .err (errF a)) kc r attempt ⟨keys, i0⟩ last =
      ⟨.allKeysFailed (match r with
          | 0 => last
          | _ + 1 => some (errF (attempt + r - 1))), r,
        allFailSleeps (geminiBackoffMs kc) errF attempt r⟩ := by
  intro r
  induction r with
  | zero => intro attempt i0 last; simp [geminiRetryLoop, allFailSleeps]
  | succ r ih =>
    intro attempt i0 last
    have hnn : (0 : Int) ≤ (i0 + 1) % (keys.length : Int) :=
      Int.emod_nonneg _ (by exact_mod_cast hk)
    have hl : (i0 + 1) % (keys.length : Int) < (keys.length : Int) :=
      Int.emod_lt_of_pos _ (by exact_mod_cast Nat.pos_of_ne_zero hk)
    have hlt : ((i0 + 1) % (keys.length : Int)).toNat < keys.length := by omega
    have hkey : keys[((i0 + 1) % (keys.length : Int)).toNat]? =
        some keys[((i0 + 1) % (keys.length : Int)).toNat] := List.getElem?_eq_getElem hlt
    simp only [geminiRetryLoop, ApiKeyService.getNextApiKey, ApiKeyService.getApiKeys,
      if_neg hk, hkey]
    rw [if_neg (hne _ (List.getElem_mem hlt))]
    rw [ih (attempt + 1) _ (some (errF attempt))]
    cases r with
    | zero =>
      simp only [allFailSleeps, List.append_nil, Nat.add_sub_cancel]
      by_cases h429 : (errF attempt).status = some 429
      · rw [if_pos h429, if_pos h429]
      · rw [if_neg h429, if_neg h429]
    | succ r2 =>
      have hidx : attempt + 1 + (r2 + 1) - 1 = attempt + (r2 + 1 + 1) - 1 := by omega
      simp only [allFailSleeps, hidx]
      by_cases h429 : (errF attempt).status = some 429
      · rw [if_pos h429, if_pos h429]; rfl
      · rw [if_neg h429, if_neg h429]; rfl

lemma openRouterRetryLoop_all_fail (α : Type) (errP errFb : Nat → ApiError)
    (keys : List String) (hk : ¬ keys.length = 0) (hne : ∀ k ∈ keys, ¬ k = "") (kc : Nat) :
    ∀ (r attempt : Nat) (i0 : Int) (last : Option ApiError),
    @openRouterRetryLoop α (fun a => (.err (errP a), .err (errFb a))) kc r attempt ⟨keys, i0⟩ last =
      ⟨.allKeysFailed (match r with
          | 0 => last
          | _ + 1 => some (errP (attempt + r - 1))), r,
        allFailSleeps (openRouterBackoffMs kc) errP attempt r⟩ := by
  intro r
  induction r with
  | zero => intro attempt i0 last; simp [openRouterRetryLoop, allFailSleeps]
  | succ r ih =>
    intro attempt i0 last
    have hnn : (0 : Int) ≤ (i0 + 1) % (keys.length : Int) :=
      Int.emod_nonneg _ (by exact_mod_cast hk)
    have hl : (i0 + 1) % (keys.length : Int) < (keys.length : Int) :=
      Int.emod_lt_of_pos _ (by exact_mod_cast Nat.pos_of_ne_zero hk)
    have hlt : ((i0 + 1) % (keys.length : Int)).toNat < keys.length := by omega
    have hkey : keys[((i0 + 1) % (keys.length : Int)).toNat]? =
        some keys[((i0 + 1) % (keys.length : Int)).toNat] := List.getElem?_eq_getElem hlt
    simp only [openRouterRetryLoop, ApiKeyService.getNextApiKey, ApiKeyService.getApiKeys,
      if_neg hk, hkey]
    rw [if_neg (hne _ (List.getElem_mem hlt))]
    rw [ih (attempt + 1) _ (some (errP attempt))]
    cases r with
    | zero =>
      simp only [allFailSleeps, List.append_nil, Nat.add_sub_cancel]
      by_cases h429 : (errP attempt).status = some 429
      · rw [if_pos h429, if_pos h429]
      · rw [if_neg h429, if_neg h429]
    | succ r2 =>
      have hidx : attempt + 1 + (r2 + 1) - 1 = attempt + (r2 + 1 + 1) - 1 := by omega
      simp only [allFailSleeps, hidx]
      by_cases h429 : (errP attempt).status = some 429
      · rw [if_pos h429, if_pos h429]; rfl
      · rw [if_neg h429, if_neg h429]; rfl

/-- C1: with a non-empty key pool (of well-formed, non-empty keys, as
`parseKeys` guarantees) and every attempt failing, both executors make
exactly `keyCount × 3` attempts and fail with `AllKeysFailedError` carrying
the error observed on the final attempt. -/
theorem executors_exhaust_full_budget (α : Type) (svc : ApiKeyService)
    (errF errP errFb : Nat → ApiError)
    (hne : ¬ svc.userApiKeys = []) (hwf : ∀ k ∈ svc.userApiKeys, ¬ k = "") :
    ((@executeWithRetry α true svc (fun a => .err (errF a))).attemptsMade
        = svc.userApiKeys.length * 3 ∧
      (@executeWithRetry α true svc (fun a => .err (errF a))).outcome
        = .allKeysFailed (some (errF (svc.userApiKeys.length * 3)))) ∧
    ((@executeOpenRouterWithRetry α svc (fun a => (.err (errP a), .err (errFb a)))).attemptsMade
        = svc.userApiKeys.length * 3 ∧
      (@executeOpenRouterWithRetry α svc (fun a => (.err (errP a), .err (errFb a)))).outcome
        = .allKeysFailed (some (errP (svc.userApiKeys.length * 3)))) := by
  obtain ⟨keys, i0⟩ := svc
  dsimp only at hne hwf ⊢
  have hk : ¬ keys.length = 0 := by simpa using hne
  have h3 : ¬ keys.length * 3 = 0 := by
    intro h; exact hk (by omega)
  obtain ⟨r2, hr2⟩ : ∃ r2, keys.length * 3 = r2 + 1 :=
    ⟨keys.length * 3 - 1, by omega⟩
  constructor
  · have hG := geminiRetryLoop_all_fail α errF keys hk hwf keys.length
      (keys.length * 3) 1 i0 none
    simp only [executeWithRetry, ApiKeyService.getApiKeys, if_neg hk, Bool.not_true,
      if_neg (by simp : ¬ (false = true))] at *
    rw [hG]
    rw [hr2]
    exact ⟨rfl, by simp [Nat.add_sub_cancel]⟩
  · have hO := openRouterRetryLoop_all_fail α errP errFb keys hk hwf keys.length
      (keys.length * 3) 1 i0 none
    simp only [executeOpenRouterWithRetry, ApiKeyService.getApiKeys, if_neg hk] at *
    rw [hO, hr2]
    exact ⟨rfl, by simp [Nat.add_sub_cancel]⟩

/-- C1 witness: a two-key pool, every attempt failing with HTTP 429, for
both executors: six attempts, then `AllKeysFailedError` with the final
error. -/
theorem executors_exhaust_full_budget_witness :
    ((@executeWithRetry Unit true ⟨[("a"), ("b")], -1⟩
        (fun _ => .err ⟨some 429, ("quota"), none⟩)).attemptsMade = 2 * 3 ∧
      (@executeWithRetry Unit true ⟨[("a"), ("b")], -1⟩
        (fun _ => .err ⟨some 429, ("quota"), none⟩)).outcome
        = .allKeysFailed (some ⟨some 429, ("quota"), none⟩)) ∧
    ((@executeOpenRouterWithRetry Unit ⟨[("a"), ("b")], -1⟩
        (fun _ => (.err ⟨some 429, ("quota"), none⟩, .err ⟨some 404, ("nf"), none⟩))).attemptsMade
        = 2 * 3 ∧
      (@executeOpenRouterWithRetry Unit ⟨[("a"), ("b")], -1⟩
        (fun _ => (.err ⟨some 429, ("quota"), none⟩, .err ⟨some 404, ("nf"), none⟩))).outcome
        = .allKeysFailed (some ⟨some 429, ("quota"), none⟩)) := by
  have h := executors_exhaust_full_budget Unit ⟨[("a"), ("b")], -1⟩
    (fun _ => ⟨some 429, ("quota"), none⟩) (fun _ => ⟨some 429, ("quota"), none⟩)
    (fun _ => ⟨some 404, ("nf"), none⟩) (by decide) (by decide)
  exact ⟨⟨h.1.1, h.1.2⟩, ⟨h.2.1, h.2.2⟩⟩

lemma allFailSleeps_formula (delayFn : Nat → ApiError → Nat) (errF : Nat → ApiError)
    (h429 : ∀ n, (errF n).status = some 429) :
    ∀ (r attempt : Nat),
    allFailSleeps delayFn errF attempt r =
      (List.range r).map (fun t => delayFn (attempt + t) (errF (attempt + t))) := by
  intro r
  induction r with
  | zero => intro attempt; simp [allFailSleeps]
  | succ r ih =>
    intro attempt
    rw [allFailSleeps, if_pos (h429 attempt), ih (attempt + 1),
      List.range_succ_eq_map, List.map_cons, List.map_map]
    simp only [List.singleton_append, Nat.add_zero, List.cons.injEq]
    refine ⟨trivial, List.map_congr_left ?_⟩
    intro t ht
    simp only [Function.comp]
    have hidx : attempt + 1 + t = attempt + (t + 1) := by omega
    rw [hidx]

/-- C8 (amended): on each attempt failing with HTTP 429 the default sleep
is `2000ms × cycle`, `cycle = floor((attempt-1)/keyCount) + 1`, for both
executors; the Gemini executor replaces the default by the payload's
retry-after duration plus a 500 ms margin when one is present, while the
OpenRouter executor never inspects the payload and always sleeps the
default. -/
theorem backoff_policy_amended (kc a : Nat) (e : ApiError) :
    (retryInfoSeconds e = none →
      geminiBackoffMs kc a e = 2000 * ((a - 1) / kc + 1)) ∧
    (∀ secs, retryInfoSeconds e = some secs →
      geminiBackoffMs kc a e = secs * 1000 + 500) ∧
    openRouterBackoffMs kc a e = 2000 * ((a - 1) / kc + 1) ∧
    (∀ (keys : List String) (i0 : Int), ¬ keys = [] → (∀ k ∈ keys, ¬ k = "") →
      ∀ (errF : Nat → ApiError), (∀ n, (errF n).status = some 429) →
      (@executeWithRetry Unit true ⟨keys, i0⟩ (fun n => .err (errF n))).sleepsMs
          = (List.range (keys.length * 3)).map
              (fun t => geminiBackoffMs keys.length (1 + t) (errF (1 + t))) ∧
      (@executeOpenRouterWithRetry Unit ⟨keys, i0⟩
            (fun n => (.err (errF n), .err (errF n)))).sleepsMs
          = (List.range (keys.length * 3)).map
              (fun t => openRouterBackoffMs keys.length (1 + t) (errF (1 + t)))) := by
  refine ⟨?_, ?_, ?_, ?_⟩
  · intro h; simp [geminiBackoffMs, h]
  · intro secs h; simp [geminiBackoffMs, h]
  · rfl
  · intro keys i0 hne hwf errF h429
    have hk : ¬ keys.length = 0 := by simpa using hne
    constructor
    · rw [executeWithRetry]
      simp only [ApiKeyService.getApiKeys, if_neg hk, Bool.not_true,
        if_neg (by simp : ¬ (false = true))]
      rw [geminiRetryLoop_all_fail Unit errF keys hk hwf keys.length (keys.length * 3) 1 i0 none]
      exact allFailSleeps_formula _ errF h429 (keys.length * 3) 1
    · rw [executeOpenRouterWithRetry]
      simp only [ApiKeyService.getApiKeys, if_neg hk]
      rw [openRouterRetryLoop_all_fail Unit errF errF keys hk hwf keys.length
        (keys.length * 3) 1 i0 none]
      exact allFailSleeps_formula _ errF h429 (keys.length * 3) 1

/-- C8 witness: one key failing with plain 429s — Gemini and OpenRouter
both sleep 2000, 4000, 6000 ms across the three cycles, and with a
retry-after of 30 s the Gemini delay is 30500 ms. -/
theorem backoff_policy_amended_witness :
    (@executeWithRetry Unit true ⟨[("k")], -1⟩
        (fun _ => .err ⟨some 429, ("quota"), none⟩)).sleepsMs = [2000, 4000, 6000] ∧
    (@executeOpenRouterWithRetry Unit ⟨[("k")], -1⟩
        (fun _ => (.err ⟨some 429, ("quota"), none⟩,
          .err ⟨some 429, ("quota"), none⟩))).sleepsMs = [2000, 4000, 6000] ∧
    geminiBackoffMs 1 1 ⟨some 429, ("quota"), some ("30s")⟩ = 30 * 1000 + 500 := by
  have h := backoff_policy_amended 1 1 ⟨some 429, ("quota"), some ("30s")⟩
  have hrun := h.2.2.2 [("k")] (-1) (by decide) (by decide)
    (fun _ => ⟨some 429, ("quota"), none⟩) (fun _ => rfl)
  refine ⟨?_, ?_, h.2.1 30 (by decide)⟩
  · rw [hrun.1]; decide
  · rw [hrun.2]; decide

/-- C8 counterexample: the OpenRouter executor does not honor a
machine-readable retry-after duration.  With a single key and every attempt
failing with a 429 whose payload carries `retryDelay = "30s"`, the claim
demands sleeps of 30500 ms, but the executor sleeps 2000, 4000, 6000 ms. -/
theorem openRouter_ignores_retryAfter_cex :
    (@executeOpenRouterWithRetry Unit ⟨[("k")], -1⟩
        (fun _ => (.err ⟨some 429, ("rate limited"), some ("30s")⟩,
          .err ⟨some 429, ("rate limited"), some ("30s")⟩))).sleepsMs
      = [2000, 4000, 6000] ∧
    retryInfoSeconds ⟨some 429, ("rate limited"), some ("30s")⟩ = some 30 ∧
    ¬ (2000 = 30 * 1000 + 500) := by
  decide

/-! ## Planner turn sanitation (`plannerService.ts`, `sanitizePlannerTurn`)

The parser output is a JSON value.  Numbers are modelled as integers
(the sanitizer only ever stringifies them, and no claim depends on float
rendering); `JSON.stringify` is modelled structurally, escaping the
characters the escape table shares with JavaScript. -/

inductive Json where
  | null
  | bool (b : Bool)
  | num (n : Int)
  | str (s : String)
  | arr (elems : List Json)
  | obj (fields : List (String × Json))

/-- Property access `raw.key` on a parsed JSON object (parsed objects have
unique keys, so first match suffices). -/
def jlookup (fields : List (String × Json)) (key : String) : Option Json :=
  (fields.find? (fun p => p.1 == key)).map Prod.snd

/-- Escape a string body for `JSON.stringify`. -/
def jsonEscape (s : String) : String :=
  ⟨(s.data.map (fun ch =>
      if ch = '"' then ['\\', '"']
      else if ch = '\\' then ['\\', '\\']
      else if ch = '\n' then ['\\', 'n']
      else if ch = '\t' then ['\\', 't']
      else if ch = '\r' then ['\\', 'r']
      else [ch])).flatten⟩

mutual

/-- Model of `JSON.stringify` on parsed JSON values (on which it cannot
throw: there are no cycles and no BigInt). -/
def jsonStringify : Json → String
  | .null => "null"
  | .bool true => "true"
  | .bool false => "false"
  | .num n => n.repr
  | .str s => "\"" ++ jsonEscape s ++ "\""
  | .arr elems => "[" ++ jsonStringifyElems elems ++ "]"
  | .obj fields => "\x7b" ++ jsonStringifyFields fields ++ "\x7d"

def jsonStringifyElems : List Json → String
  | [] => ""
  | [x] => jsonStringify x
  | x :: y :: rest => jsonStringify x ++ "," ++ jsonStringifyElems (y :: rest)

def jsonStringifyFields : List (String × Json) → String
  | [] => ""
  | [p] => "\"" ++ jsonEscape p.1 ++ "\":" ++ jsonStringify p.2
  | p :: q :: rest =>
    "\"" ++ jsonEscape p.1 ++ "\":" ++ jsonStringify p.2 ++ ","
      ++ jsonStringifyFields (q :: rest)

end

/-- The three planner actions (the union type of `PlannerTurn.action`
after sanitation). -/
inductive PlannerAction where
  | search
  | continue_debate
  | finish
deriving DecidableEq

/-- A sanitized planner decision. -/
structure PlannerDecision where
  thought : String
  action : PlannerAction
  queries : Option (List String)
  finish_reason : Option String
deriving DecidableEq

/-- Normalize the raw `action` string (already trimmed and lower-cased):
members of the allowed set map to themselves, anything else defaults to
`continue_debate`. -/
def normalizeAction (rawAction : String) : PlannerAction :=
  if rawAction = ("search") then .search
  else if rawAction = ("finish") then .finish
  else .continue_debate

/-- Coerce the raw `thought` field: a string passes through, `null` or a
missing field aborts (the sanitizer returns `null`), anything else is
JSON-stringified. -/
def sanitizeThought : Option Json → Option String
  | some (.str s) => some s
  | none => none
  | some .null => none
  | some other => some (jsonStringify other)

/-- Normalize the raw `queries` field: a non-array stays `null`; an array
is stringified element-wise, trimmed, stripped of empties, capped at four,
and an empty remainder becomes `null`. -/
def sanitizeQueries : Option Json → Option (List String)
  | some (.arr qs) =>
    let strs := qs.map (fun q =>
      match q with
      | .str s => s
      | other => jsonStringify other)
    let cleaned := ((strs.map jsTrim).filter (fun q => 0 < q.length)).take 4
    if cleaned.length = 0 then none else some cleaned
  | _ => none

/-- Normalize the raw `finish_reason` field: loose-null stays `null`, a
string passes through, anything else is JSON-stringified. -/
def sanitizeFinishReason : Option Json → Option String
  | none => none
  | some .null => none
  | some (.str s) => some s
  | some other => some (jsonStringify other)

/-- Model of `sanitizePlannerTurn`: coerce `thought` to a string (null or
missing aborts with `null`), normalize `action`, trim/filter/cap `queries`
to at most four non-empty strings (empty result becomes `null`), and
stringify a non-null `finish_reason`. -/
def sanitizePlannerTurn (raw : Json) : Option PlannerDecision :=
  match raw with
  | .obj fields =>
    match sanitizeThought (jlookup fields ("thought")) with
    | none => none
    | some thought =>
      let rawAction :=
        match jlookup fields ("action") with
        | some (.str s) => jsToLower (jsTrim s)
        | _ => ""
      some ⟨thought, normalizeAction rawAction,
        sanitizeQueries (jlookup fields ("queries")),
        sanitizeFinishReason (jlookup fields ("finish_reason"))⟩
  | _ => none

lemma sanitizeThought_eq_none (tj : Option Json) :
    sanitizeThought tj = none ↔ (tj = none ∨ tj = some .null) := by
  cases tj with
  | none => simp [sanitizeThought]
  | some j => cases j <;> simp [sanitizeThought]

lemma sanitizeQueries_shape (qv : Option Json) :
    sanitizeQueries qv = none ∨
      ∃ qs, sanitizeQueries qv = some qs ∧ 1 ≤ qs.length ∧ qs.length ≤ 4 ∧
        ∀ q ∈ qs, 0 < q.length ∧ ∃ r, q = jsTrim r := by
  cases qv with
  | none => exact Or.inl rfl
  | some j =>
    cases j with
    | arr qs =>
      simp only [sanitizeQueries]
      set strs := qs.map (fun q =>
        match q with
        | .str s => s
        | other => jsonStringify other) with hstrs
      set cleaned := ((strs.map jsTrim).filter (fun q => 0 < q.length)).take 4 with hcleaned
      by_cases hlen : cleaned.length = 0
      · exact Or.inl (by simp [hlen])
      · refine Or.inr ⟨cleaned, by simp [hlen], by omega, ?_, ?_⟩
        · rw [hcleaned, List.length_take]
          omega
        · intro q hq
          rw [hcleaned] at hq
          have hqf := List.mem_of_mem_take hq
          have hql := List.of_mem_filter hqf
          have hqm := List.mem_of_mem_filter hqf
          refine ⟨by simpa using hql, ?_⟩
          obtain ⟨r, _, rfl⟩ := List.mem_map.mp hqm
          exact ⟨r, rfl⟩
    | null => exact Or.inl rfl
    | bool b => exact Or.inl rfl
    | num n => exact Or.inl rfl
    | str s => exact Or.inl rfl
    | obj fs => exact Or.inl rfl

/-- C5: the sanitizer is total on JSON objects: it returns `null` exactly
when the `thought` field is absent or null, and otherwise a record whose
action is one of the three allowed values (unrecognized or missing actions
defaulting to `continue_debate`), whose thought is a string, whose queries
are either `null` or one to four non-empty trimmed strings, and whose
finish reason is a string or `null`. -/
theorem sanitizePlannerTurn_total (fields : List (String × Json)) :
    (sanitizePlannerTurn (.obj fields) = none ↔
      (jlookup fields ("thought") = none ∨ jlookup fields ("thought") = some .null)) ∧
    (∀ d, sanitizePlannerTurn (.obj fields) = some d →
      (d.action = .search ∨ d.action = .continue_debate ∨ d.action = .finish) ∧
      (d.queries = none ∨ ∃ qs, d.queries = some qs ∧ 1 ≤ qs.length ∧ qs.length ≤ 4 ∧
        ∀ q ∈ qs, 0 < q.length ∧ ∃ r, q = jsTrim r)) ∧
    ((∀ s, jlookup fields ("action") = some (.str s) →
        ¬ jsToLower (jsTrim s) = ("search") ∧ ¬ jsToLower (jsTrim s) = ("finish")) →
      ∀ d, sanitizePlannerTurn (.obj fields) = some d → d.action = .continue_debate) := by
  refine ⟨?_, ?_, ?_⟩
  · cases hth : sanitizeThought (jlookup fields ("thought")) with
    | none =>
      rw [← sanitizeThought_eq_none]
      simp [sanitizePlannerTurn, hth]
    | some t =>
      have hne : ¬ (jlookup fields ("thought") = none ∨
          jlookup fields ("thought") = some .null) := by
        rw [← sanitizeThought_eq_none, hth]; simp
      simp [sanitizePlannerTurn, hth, hne]
  · intro d hd
    cases hth : sanitizeThought (jlookup fields ("thought")) with
    | none => simp [sanitizePlannerTurn, hth] at hd
    | some t =>
      simp only [sanitizePlannerTurn, hth] at hd
      obtain rfl := (Option.some.inj hd).symm
      constructor
      · simp only [normalizeAction]
        by_cases h1 : (match jlookup fields ("action") with
            | some (.str s) => jsToLower (jsTrim s)
            | _ => "") = ("search")
        · rw [if_pos h1]; exact Or.inl rfl
        · rw [if_neg h1]
          by_cases h2 : (match jlookup fields ("action") with
              | some (.str s) => jsToLower (jsTrim s)
              | _ => "") = ("finish")
          · rw [if_pos h2]; exact Or.inr (Or.inr rfl)
          · rw [if_neg h2]; exact Or.inr (Or.inl rfl)
      · exact sanitizeQueries_shape (jlookup fields ("queries"))
  · intro hact d hd
    cases hth : sanitizeThought (jlookup fields ("thought")) with
    | none => simp [sanitizePlannerTurn, hth] at hd
    | some t =>
      simp only [sanitizePlannerTurn, hth] at hd
      obtain rfl := (Option.some.inj hd).symm
      simp only [normalizeAction]
      cases hl : jlookup fields ("action") with
      | none => simp only [hl]; rfl
      | some j =>
        cases j with
        | str s =>
          obtain ⟨hs1, hs2⟩ := hact s hl
          simp only [hl]
          rw [if_neg hs1, if_neg hs2]
        | null => simp only [hl]; rfl
        | bool b => simp only [hl]; rfl
        | num n => simp only [hl]; rfl
        | arr es => simp only [hl]; rfl
        | obj fs => simp only [hl]; rfl

/-- C5 witness: a malformed decision — mixed-case padded action, a query
list with junk entries — sanitizes to a well-formed record with a default
action; an object without `thought` sanitizes to `null`. -/
theorem sanitizePlannerTurn_total_witness :
    (sanitizePlannerTurn (.obj [(("thought"), .str ("t")), (("action"), .str (" FINISH "))])
        = some ⟨("t"), .finish, none, none⟩) ∧
    (sanitizePlannerTurn (.obj [(("action"), .str ("search"))]) = none) ∧
    (∀ d, sanitizePlannerTurn (.obj [(("thought"), .str ("t")),
        (("queries"), .arr [.str (" a "), .str ("  ")])]) = some d →
      d.action = .continue_debate) := by
  have h2 := (sanitizePlannerTurn_total [(("action"), .str ("search"))]).1.mpr
    (Or.inl rfl)
  have h3 := (sanitizePlannerTurn_total [(("thought"), .str ("t")),
      (("queries"), .arr [.str (" a "), .str ("  ")])]).2.2
    (by intro s hs; exact Option.noConfusion hs)
  exact ⟨by decide, h2, h3⟩

/-! ## The conversational planner loop (`runDynamicConversationalPlanner`)

The loop is driven by an oracle giving, per iteration, the model response
text and the result of the markdown-JSON extraction (`parseJsonFromMarkdown`
lives outside the core sources; the loop only consumes its output).  The
pacing delay, the cancellation checkpoint and the non-fatal web-signals
digest do not influence the decision logic and are not modelled; a
cancellation or executor failure aborts the whole call by exception and is
outside these claims. -/

inductive AgentPersona where
  | Alpha
  | Beta
deriving DecidableEq

/-- Persona flip, as written twice in the source:
`nextPersona === 'Alpha' ? 'Beta' : 'Alpha'`. -/
def flipPersona : AgentPersona → AgentPersona
  | .Alpha => .Beta
  | .Beta => .Alpha

def personaName : AgentPersona → String
  | .Alpha => "Alpha"
  | .Beta => "Beta"

/-- The update kinds the planner reads from the research log. -/
inductive UpdateType where
  | thought
  | search
  | read
  | other
deriving DecidableEq

/-- A research-log entry, as far as the planner inspects it. -/
structure ResearchUpdate where
  type : UpdateType
  persona : Option AgentPersona
  content : String
deriving DecidableEq

/-- A `thought` update emitted through `onUpdate` (ids are a strictly
increasing counter with no behavioural content and are omitted). -/
structure UpdateEvent where
  persona : Option AgentPersona
  content : String
deriving DecidableEq

/-- The debate tail: walking the log backwards, the maximal suffix of
persona-attributed thoughts (a non-thought or persona-less update stops
the reconstruction). -/
def tailThoughts (researchHistory : List ResearchUpdate) : List ResearchUpdate :=
  ((researchHistory.reverse).takeWhile
    (fun u => u.type == UpdateType.thought && u.persona.isSome)).reverse

/-- The reconstructed conversation: persona and thought of each tail entry. -/
def reconstructConversation (researchHistory : List ResearchUpdate) :
    List (AgentPersona × String) :=
  (tailThoughts researchHistory).filterMap
    (fun u => u.persona.map (fun p => (p, u.content)))

/-- The persona who spoke most recently in the tail, when any did. -/
def reconstructLastPersona (researchHistory : List ResearchUpdate) : Option AgentPersona :=
  match ((researchHistory.reverse).takeWhile
      (fun u => u.type == UpdateType.thought && u.persona.isSome)).head? with
  | some u => u.persona
  | none => none

/-- One oracle turn: the model response text and the markdown-JSON
extraction of it. -/
structure PlannerModelOutput where
  text : String
  parsed : Option Json

/-- Result of a planner call: the returned record plus the observable
emitted `thought` updates, the debate turns pushed onto the conversation,
and the number of loop iterations executed. -/
structure PlannerRun where
  search_queries : List String
  should_finish : Bool
  finish_reason : Option String
  events : List UpdateEvent
  newTurns : List (AgentPersona × String)
  turnsMade : Nat
deriving DecidableEq

/-- The decision obtained from an oracle turn:
`sanitizePlannerTurn(parseJsonFromMarkdown(response.text))`. -/
def decisionOf (o : PlannerModelOutput) : Option PlannerDecision :=
  match o.parsed with
  | some j => sanitizePlannerTurn j
  | none => none

/-- The defaulted finish reason:
`parsedResponse.finish_reason || nextPersona + " decided to finish."`. -/
def finishReasonOf (d : PlannerDecision) (p : AgentPersona) : String :=
  match d.finish_reason with
  | some r => if r = "" then personaName p ++ (" decided to finish.") else r
  | none => personaName p ++ (" decided to finish.")

def ruleViolationMsg (minCycles : Nat) : String :=
  ("Rule violation: Cannot finish before ") ++ Nat.repr minCycles
    ++ (" search cycles. Forcing debate to continue.")

def consensusMsg : String :=
  "Agent consensus to finish has been detected. Overriding the minimum cycle rule to conclude research."

def timeoutTurnMsg : String :=
  "Debate reached maximum turns without a decision. Forcing research to conclude."

def timedOutReason : String :=
  "Planning debate timed out."

/-- The fallback thought used when sanitation yields no usable
thought/action: the trimmed raw text, or a canned notice. -/
def fallbackThoughtOf (o : PlannerModelOutput) (p : AgentPersona) : String :=
  if ¬ jsTrim o.text = "" then jsTrim o.text
  else ("Agent ") ++ personaName p ++ (" produced non-JSON output. Proceeding with debate.")

/-- The debate loop.  `remaining` is the fuel `maxDebateRounds − debateTurns`
(the loop guard `debateTurns < maxDebateRounds` with `debateTurns` stepping
by one each iteration); `consecutiveFinishAttempts` and the speaking persona
thread through exactly as in the source. -/
def plannerLoop (minCycles searchCycles : Nat) (oracle : Nat → PlannerModelOutput) :
    Nat → AgentPersona → Nat → Nat → PlannerRun
  | 0, _, _, _ =>
    { search_queries := [], should_finish := true,
      finish_reason := some timedOutReason,
      events := [⟨none, timeoutTurnMsg⟩], newTurns := [], turnsMade := 0 }
  | remaining + 1, nextPersona, consecutiveFinishAttempts, iter =>
    let o := oracle iter
    match decisionOf o with
    | none =>
      let th := fallbackThoughtOf o nextPersona
      let rest := plannerLoop minCycles searchCycles oracle remaining
        (flipPersona nextPersona) consecutiveFinishAttempts (iter + 1)
      { rest with
          events := ⟨some nextPersona, th⟩ :: rest.events,
          newTurns := (nextPersona, th) :: rest.newTurns,
          turnsMade := rest.turnsMade + 1 }
    | some d =>
      if d.thought = "" then
        -- `!parsedResponse.thought` — an empty thought is falsy
        let th := fallbackThoughtOf o nextPersona
        let rest := plannerLoop minCycles searchCycles oracle remaining
          (flipPersona nextPersona) consecutiveFinishAttempts (iter + 1)
        { rest with
            events := ⟨some nextPersona, th⟩ :: rest.events,
            newTurns := (nextPersona, th) :: rest.newTurns,
            turnsMade := rest.turnsMade + 1 }
      else
        let turnEvent : UpdateEvent := ⟨some nextPersona, d.thought⟩
        let newTurn := (nextPersona, d.thought)
        let consec2 :=
          if d.action = .finish then consecutiveFinishAttempts + 1 else 0
        if d.action = .finish ∧ searchCycles < minCycles then
          if 2 ≤ consec2 then
            { search_queries := [], should_finish := true,
              finish_reason := some (finishReasonOf d nextPersona),
              events := [turnEvent, ⟨none, consensusMsg⟩],
              newTurns := [newTurn], turnsMade := 1 }
          else
            let rest := plannerLoop minCycles searchCycles oracle remaining
              (flipPersona nextPersona) consec2 (iter + 1)
            { rest with
                events := turnEvent :: ⟨some nextPersona, ruleViolationMsg minCycles⟩
                  :: rest.events,
                newTurns := newTurn :: rest.newTurns,
                turnsMade := rest.turnsMade + 1 }
        else if d.action = .finish then
          { search_queries := [], should_finish := true,
            finish_reason := some (finishReasonOf d nextPersona),
            events := [turnEvent], newTurns := [newTurn], turnsMade := 1 }
        else if d.action = .search ∧ (d.queries.getD []).length > 0 then
          { search_queries := d.queries.getD [], should_finish := false,
            finish_reason := none,
            events := [turnEvent], newTurns := [newTurn], turnsMade := 1 }
        else
          let rest := plannerLoop minCycles searchCycles oracle remaining
            (flipPersona nextPersona) consec2 (iter + 1)
          { rest with
              events := turnEvent :: rest.events,
              newTurns := newTurn :: rest.newTurns,
              turnsMade := rest.turnsMade + 1 }

/-- `runDynamicConversationalPlanner`: reconstruct the debate tail, pick the
persona opposite to the last speaker (`Alpha` when the tail is empty), and
run the loop with fuel `maxDebateRounds − debateTurns`. -/
def runDynamicConversationalPlanner (minCycles maxDebateRounds searchCycles : Nat)
    (researchHistory : List ResearchUpdate) (oracle : Nat → PlannerModelOutput) : PlannerRun :=
  let conversation := reconstructConversation researchHistory
  let lastPersona := reconstructLastPersona researchHistory
  let nextPersona : AgentPersona := if lastPersona = some .Alpha then .Beta else .Alpha
  plannerLoop minCycles searchCycles oracle
    (maxDebateRounds - conversation.length) nextPersona 0 0

lemma plannerLoop_turnsMade_le (mc sc : Nat) (oracle : Nat → PlannerModelOutput) :
    ∀ (r : Nat) (p : AgentPersona) (c iter : Nat),
    (plannerLoop mc sc oracle r p c iter).turnsMade ≤ r := by
  intro r
  induction r with
  | zero => intro p c iter; simp [plannerLoop]
  | succ r ih =>
    intro p c iter
    simp only [plannerLoop]
    cases hdec : decisionOf (oracle iter) with
    | none =>
      simpa using Nat.succ_le_succ (ih (flipPersona p) c (iter + 1))
    | some d =>
      by_cases h1 : d.thought = ""
      · simp only [if_pos h1]
        simpa using Nat.succ_le_succ (ih (flipPersona p) c (iter + 1))
      · simp only [if_neg h1]
        by_cases h2 : d.action = .finish ∧ sc < mc
        · simp only [if_pos h2]
          by_cases h3 : 2 ≤ (if d.action = .finish then c + 1 else 0)
          · simp only [if_pos h3]
            omega
          · simp only [if_neg h3]
            simpa using Nat.succ_le_succ
              (ih (flipPersona p) (if d.action = .finish then c + 1 else 0) (iter + 1))
        · simp only [if_neg h2]
          by_cases h4 : d.action = .finish
          · simp only [if_pos h4]
            omega
          · simp only [if_neg h4]
            by_cases h5 : d.action = .search ∧ (d.queries.getD []).length > 0
            · simp only [if_pos h5]
              omega
            · simp only [if_neg h5]
              simpa using Nat.succ_le_succ (ih (flipPersona p) 0 (iter + 1))

lemma plannerLoop_all_continue (mc sc : Nat) (oracle : Nat → PlannerModelOutput)
    (hor : ∀ n, ∃ d, decisionOf (oracle n) = some d ∧ d.action = .continue_debate ∧
      ¬ d.thought = "") :
    ∀ (r : Nat) (p : AgentPersona) (c iter : Nat),
    (plannerLoop mc sc oracle r p c iter).turnsMade = r ∧
    (plannerLoop mc sc oracle r p c iter).should_finish = true ∧
    (plannerLoop mc sc oracle r p c iter).finish_reason = some timedOutReason ∧
    (plannerLoop mc sc oracle r p c iter).search_queries = [] := by
  intro r
  induction r with
  | zero => intro p c iter; exact ⟨rfl, rfl, rfl, rfl⟩
  | succ r ih =>
    intro p c iter
    obtain ⟨d, hd, hact, hth⟩ := hor iter
    have hfin : ¬ d.action = .finish := by rw [hact]; intro h; cases h
    have hsearch : ¬ d.action = .search := by rw [hact]; intro h; cases h
    simp only [plannerLoop, hd, if_neg hth]
    rw [if_neg (by intro h; exact hfin h.1), if_neg hfin,
      if_neg (by intro h; exact hsearch h.1)]
    have := ih (flipPersona p) (if d.action = .finish then c + 1 else 0) (iter + 1)
    exact ⟨by simpa using this.1, this.2.1, this.2.2.1, this.2.2.2⟩

/-- C3: the planner loop always terminates within `maxDebateRounds` turns;
when the reconstructed tail is empty and every turn decides
`continue_debate`, it makes exactly `maxDebateRounds` turns and then
reports `should_finish = true` with the fixed reason
`"Planning debate timed out."` and no queries. -/
theorem planner_bounded_and_times_out :
    (∀ (mc mdr sc : Nat) (hist : List ResearchUpdate) (oracle : Nat → PlannerModelOutput),
      (runDynamicConversationalPlanner mc mdr sc hist oracle).turnsMade ≤ mdr) ∧
    (∀ (mc mdr sc : Nat) (hist : List ResearchUpdate) (oracle : Nat → PlannerModelOutput),
      reconstructConversation hist = [] →
      (∀ n, ∃ d, decisionOf (oracle n) = some d ∧ d.action = .continue_debate ∧
        ¬ d.thought = "") →
      (runDynamicConversationalPlanner mc mdr sc hist oracle).turnsMade = mdr ∧
      (runDynamicConversationalPlanner mc mdr sc hist oracle).should_finish = true ∧
      (runDynamicConversationalPlanner mc mdr sc hist oracle).finish_reason
        = some timedOutReason ∧
      (runDynamicConversationalPlanner mc mdr sc hist oracle).search_queries = []) := by
  constructor
  · intro mc mdr sc hist oracle
    refine le_trans (plannerLoop_turnsMade_le mc sc oracle _ _ _ _) ?_
    exact Nat.sub_le mdr (reconstructConversation hist).length
  · intro mc mdr sc hist oracle hempty hor
    have h := plannerLoop_all_continue mc sc oracle hor (mdr - (reconstructConversation hist).length)
      (if reconstructLastPersona hist = some .Alpha then .Beta else .Alpha) 0 0
    rw [runDynamicConversationalPlanner]
    simp only [hempty, List.length_nil, Nat.sub_zero] at h ⊢
    exact h

/-- C3 witness: three continue-debate turns with an empty tail exhaust
`maxDebateRounds = 3` and time out with the fixed reason. -/
theorem planner_bounded_and_times_out_witness :
    (runDynamicConversationalPlanner 7 3 0 []
      (fun _ => ⟨("raw"), some (.obj [(("thought"), .str ("c")),
        (("action"), .str ("continue_debate"))])⟩)).turnsMade = 3 ∧
    (runDynamicConversationalPlanner 7 3 0 []
      (fun _ => ⟨("raw"), some (.obj [(("thought"), .str ("c")),
        (("action"), .str ("continue_debate"))])⟩)).should_finish = true ∧
    (runDynamicConversationalPlanner 7 3 0 []
      (fun _ => ⟨("raw"), some (.obj [(("thought"), .str ("c")),
        (("action"), .str ("continue_debate"))])⟩)).finish_reason = some timedOutReason := by
  have h := planner_bounded_and_times_out.2 7 3 0 []
    (fun _ => ⟨("raw"), some (.obj [(("thought"), .str ("c")),
      (("action"), .str ("continue_debate"))])⟩)
    (by decide)
    (fun n => ⟨⟨("c"), .continue_debate, none, none⟩, rfl, rfl, by decide⟩)
  exact ⟨h.1, h.2.1, h.2.2.1⟩

lemma plannerLoop_override_step (mc sc : Nat) (hsc : sc < mc)
    (oracle : Nat → PlannerModelOutput) (r iter : Nat) (p : AgentPersona)
    (d : PlannerDecision) (hd : decisionOf (oracle iter) = some d)
    (hth : ¬ d.thought = "") (hact : d.action = .finish) :
    plannerLoop mc sc oracle (r + 1) p 0 iter =
      { plannerLoop mc sc oracle r (flipPersona p) 1 (iter + 1) with
          events := ⟨some p, d.thought⟩ :: ⟨some p, ruleViolationMsg mc⟩
            :: (plannerLoop mc sc oracle r (flipPersona p) 1 (iter + 1)).events,
          newTurns := (p, d.thought)
            :: (plannerLoop mc sc oracle r (flipPersona p) 1 (iter + 1)).newTurns,
          turnsMade :=
            (plannerLoop mc sc oracle r (flipPersona p) 1 (iter + 1)).turnsMade + 1 } := by
  simp only [plannerLoop, hd, if_neg hth, if_pos hact, if_pos (And.intro hact hsc)]
  rw [if_neg (by omega : ¬ 2 ≤ 0 + 1)]

lemma plannerLoop_waive_step (mc sc : Nat) (hsc : sc < mc)
    (oracle : Nat → PlannerModelOutput) (r iter consec : Nat) (hc : 1 ≤ consec)
    (p : AgentPersona) (d : PlannerDecision) (hd : decisionOf (oracle iter) = some d)
    (hth : ¬ d.thought = "") (hact : d.action = .finish) :
    plannerLoop mc sc oracle (r + 1) p consec iter =
      { search_queries := [], should_finish := true,
        finish_reason := some (finishReasonOf d p),
        events := [⟨some p, d.thought⟩, ⟨none, consensusMsg⟩],
        newTurns := [(p, d.thought)], turnsMade := 1 } := by
  simp only [plannerLoop, hd, if_neg hth, if_pos hact, if_pos (And.intro hact hsc)]
  rw [if_pos (by omega : 2 ≤ consec + 1)]

/-- C4: while `searchCycles < minCycles`, a sanitized `finish` decision is
overridden to `continue_debate` and the loop keeps going (emitting the
rule-violation notice) when it is a first, isolated finish attempt; on the
second or later consecutive finish attempt the override is waived and the
planner returns `should_finish = true`.  In particular two consecutive
finish decisions end the debate on the second one. -/
theorem planner_minCycles_override (mc sc : Nat) (hsc : sc < mc)
    (oracle : Nat → PlannerModelOutput) (r iter consec : Nat) (p : AgentPersona)
    (d : PlannerDecision) (hd : decisionOf (oracle iter) = some d)
    (hth : ¬ d.thought = "") (hact : d.action = .finish) :
    (consec = 0 →
      (plannerLoop mc sc oracle (r + 1) p consec iter).should_finish
          = (plannerLoop mc sc oracle r (flipPersona p) 1 (iter + 1)).should_finish ∧
      (plannerLoop mc sc oracle (r + 1) p consec iter).search_queries
          = (plannerLoop mc sc oracle r (flipPersona p) 1 (iter + 1)).search_queries ∧
      (plannerLoop mc sc oracle (r + 1) p consec iter).turnsMade
          = (plannerLoop mc sc oracle r (flipPersona p) 1 (iter + 1)).turnsMade + 1 ∧
      (plannerLoop mc sc oracle (r + 1) p consec iter).events
          = ⟨some p, d.thought⟩ :: ⟨some p, ruleViolationMsg mc⟩
            :: (plannerLoop mc sc oracle r (flipPersona p) 1 (iter + 1)).events) ∧
    (1 ≤ consec →
      (plannerLoop mc sc oracle (r + 1) p consec iter).should_finish = true ∧
      (plannerLoop mc sc oracle (r + 1) p consec iter).finish_reason
          = some (finishReasonOf d p) ∧
      (plannerLoop mc sc oracle (r + 1) p consec iter).turnsMade = 1) ∧
    (∀ d2, consec = 0 → decisionOf (oracle (iter + 1)) = some d2 →
      ¬ d2.thought = "" → d2.action = .finish →
      (plannerLoop mc sc oracle (r + 2) p consec iter).should_finish = true ∧
      (plannerLoop mc sc oracle (r + 2) p consec iter).turnsMade = 2 ∧
      (plannerLoop mc sc oracle (r + 2) p consec iter).finish_reason
        = some (finishReasonOf d2 (flipPersona p))) := by
  refine ⟨?_, ?_, ?_⟩
  · intro hc
    subst hc
    rw [plannerLoop_override_step mc sc hsc oracle r iter p d hd hth hact]
    exact ⟨rfl, rfl, rfl, rfl⟩
  · intro hc
    obtain ⟨c2, rfl⟩ : ∃ c2, consec = c2 + 1 := ⟨consec - 1, by omega⟩
    rw [plannerLoop_waive_step mc sc hsc oracle r iter (c2 + 1) hc p d hd hth hact]
    exact ⟨rfl, rfl, rfl⟩
  · intro d2 hc hd2 hth2 hact2
    subst hc
    have hstep : r + 2 = (r + 1) + 1 := rfl
    rw [hstep, plannerLoop_override_step mc sc hsc oracle (r + 1) iter p d hd hth hact]
    rw [plannerLoop_waive_step mc sc hsc oracle r (iter + 1) 1 (by omega) (flipPersona p)
      d2 hd2 hth2 hact2]
    exact ⟨rfl, rfl, rfl⟩

/-- C4 witness: `minCycles = 7`, `searchCycles = 3`, two consecutive finish
decisions — the second is honored despite the floor, after exactly two
turns. -/
theorem planner_minCycles_override_witness :
    (plannerLoop 7 3 (fun _ => ⟨("raw"), some (.obj [(("thought"), .str ("t")),
        (("action"), .str ("finish"))])⟩) (18 + 2) .Alpha 0 0).should_finish = true ∧
    (plannerLoop 7 3 (fun _ => ⟨("raw"), some (.obj [(("thought"), .str ("t")),
        (("action"), .str ("finish"))])⟩) (18 + 2) .Alpha 0 0).turnsMade = 2 ∧
    (plannerLoop 7 3 (fun _ => ⟨("raw"), some (.obj [(("thought"), .str ("t")),
        (("action"), .str ("finish"))])⟩) (18 + 2) .Alpha 0 0).finish_reason
      = some (("Beta decided to finish.")) := by
  have h := (planner_minCycles_override 7 3 (by decide)
    (fun _ => ⟨("raw"), some (.obj [(("thought"), .str ("t")),
      (("action"), .str ("finish"))])⟩) 18 0 0 .Alpha
    ⟨("t"), .finish, none, none⟩ rfl (by decide) rfl).2.2
    ⟨("t"), .finish, none, none⟩ rfl rfl (by decide) rfl
  exact ⟨h.1, h.2.1, h.2.2⟩

lemma flipPersona_ne (p : AgentPersona) : ¬ p = flipPersona p := by
  cases p <;> decide

lemma plannerLoop_alternates (mc sc : Nat) (oracle : Nat → PlannerModelOutput) :
    ∀ (r : Nat) (p : AgentPersona) (c iter : Nat),
    List.Chain' (fun a b : AgentPersona × String => ¬ a.1 = b.1)
      ((plannerLoop mc sc oracle r p c iter).newTurns) ∧
    (∀ t, ((plannerLoop mc sc oracle r p c iter).newTurns).head? = some t → t.1 = p) := by
  intro r
  induction r with
  | zero =>
    intro p c iter
    exact ⟨List.chain'_nil, fun t ht => by cases ht⟩
  | succ r ih =>
    intro p c iter
    simp only [plannerLoop]
    cases hdec : decisionOf (oracle iter) with
    | none =>
      have hrest := ih (flipPersona p) c (iter + 1)
      refine ⟨List.chain'_cons'.mpr ⟨?_, hrest.1⟩, ?_⟩
      · intro y hy
        rw [hrest.2 y hy]
        exact flipPersona_ne p
      · intro t ht
        cases ht
        rfl
    | some d =>
      by_cases h1 : d.thought = ""
      · simp only [if_pos h1]
        have hrest := ih (flipPersona p) c (iter + 1)
        refine ⟨List.chain'_cons'.mpr ⟨?_, hrest.1⟩, ?_⟩
        · intro y hy
          rw [hrest.2 y hy]
          exact flipPersona_ne p
        · intro t ht
          cases ht
          rfl
      · simp only [if_neg h1]
        by_cases h2 : d.action = .finish ∧ sc < mc
        · simp only [if_pos h2]
          by_cases h3 : 2 ≤ (if d.action = .finish then c + 1 else 0)
          · simp only [if_pos h3]
            exact ⟨List.chain'_singleton _, fun t ht => by cases ht; rfl⟩
          · simp only [if_neg h3]
            have hrest := ih (flipPersona p) (if d.action = .finish then c + 1 else 0) (iter + 1)
            refine ⟨List.chain'_cons'.mpr ⟨?_, hrest.1⟩, ?_⟩
            · intro y hy
              rw [hrest.2 y hy]
              exact flipPersona_ne p
            · intro t ht
              cases ht
              rfl
        · simp only [if_neg h2]
          by_cases h4 : d.action = .finish
          · simp only [if_pos h4]
            exact ⟨List.chain'_singleton _, fun t ht => by cases ht; rfl⟩
          · simp only [if_neg h4]
            by_cases h5 : d.action = .search ∧ (d.queries.getD []).length > 0
            · simp only [if_pos h5]
              exact ⟨List.chain'_singleton _, fun t ht => by cases ht; rfl⟩
            · simp only [if_neg h5]
              have hrest := ih (flipPersona p) 0 (iter + 1)
              refine ⟨List.chain'_cons'.mpr ⟨?_, hrest.1⟩, ?_⟩
              · intro y hy
                rw [hrest.2 y hy]
                exact flipPersona_ne p
              · intro t ht
                cases ht
                rfl

/-- C9 (amended): the debate turns recorded on the conversation strictly
alternate personas, and the first new turn belongs to the persona opposite
to the last speaker of the reconstructed tail; the *emitted update stream*,
however, may repeat a persona, because the rule-violation notice is
attributed to the persona whose finish was just overridden. -/
theorem planner_turns_alternate_amended (mc mdr sc : Nat)
    (hist : List ResearchUpdate) (oracle : Nat → PlannerModelOutput) :
    List.Chain' (fun a b : AgentPersona × String => ¬ a.1 = b.1)
      ((runDynamicConversationalPlanner mc mdr sc hist oracle).newTurns) ∧
    (∀ t, ((runDynamicConversationalPlanner mc mdr sc hist oracle).newTurns).head? = some t →
      t.1 = (if reconstructLastPersona hist = some .Alpha then .Beta else .Alpha)) := by
  exact plannerLoop_alternates mc sc oracle
    (mdr - (reconstructConversation hist).length)
    (if reconstructLastPersona hist = some .Alpha then .Beta else .Alpha) 0 0

/-- C9 witness (for the amended claim): with a tail ending in an Alpha
thought, the turns alternate starting with Beta. -/
theorem planner_turns_alternate_amended_witness :
    List.Chain' (fun a b : AgentPersona × String => ¬ a.1 = b.1)
      ((runDynamicConversationalPlanner 0 2 0 [⟨.thought, some .Alpha, ("prior")⟩]
        (fun _ => ⟨("raw"), some (.obj [(("thought"), .str ("c")),
          (("action"), .str ("continue_debate"))])⟩)).newTurns) ∧
    (AgentPersona.Beta, ("c")) ∈
      ((runDynamicConversationalPlanner 0 2 0 [⟨.thought, some .Alpha, ("prior")⟩]
        (fun _ => ⟨("raw"), some (.obj [(("thought"), .str ("c")),
          (("action"), .str ("continue_debate"))])⟩)).newTurns).head? := by
  have h := planner_turns_alternate_amended 0 2 0 [⟨.thought, some .Alpha, ("prior")⟩]
    (fun _ => ⟨("raw"), some (.obj [(("thought"), .str ("c")),
      (("action"), .str ("continue_debate"))])⟩)
  refine ⟨h.1, ?_⟩
  have h2 := h.2 (AgentPersona.Beta, ("c")) (by decide)
  decide

/-- C9 counterexample: the emitted update stream can contain two
consecutive persona-attributed thoughts by the same persona — a finish
decision below the cycle floor emits the agent's own turn and then the
rule-violation notice, both attributed to that agent. -/
theorem planner_same_persona_consecutive_cex :
    ((runDynamicConversationalPlanner 7 2 3 []
      (fun n => if n = 0
        then ⟨("raw"), some (.obj [(("thought"), .str ("t")), (("action"), .str ("finish"))])⟩
        else ⟨("raw"), some (.obj [(("thought"), .str ("c")),
          (("action"), .str ("continue_debate"))])⟩)).events).take 2
      = [⟨some .Alpha, ("t")⟩, ⟨some .Alpha, ruleViolationMsg 7⟩] := by
  decide

/-! ## Web search aggregator (`webSearchService.ts`)

The network, the CORS relays and the DOM/JSON parsing of each live engine
are an oracle: for every (term, engine) pair the environment supplies
either the parsed result list or the thrown failure, and independently
whether the aggregator-level 15 s timeout fires.  The `Fallback` engine and
the query processing around the LLM call are pure and embedded fully. -/

structure SearchResult where
  title : String
  url : String
  snippet : String
  source : String
deriving DecidableEq

structure Citation where
  source : String
  title : String
  url : String
deriving DecidableEq

structure ProcessedQuery where
  originalQuery : String
  searchTerms : List String
  primaryTerm : String
  context : String
deriving DecidableEq

/-- The validated shape of the query-optimization LLM response. -/
structure AiQueryResult where
  searchTerms : List String
  primaryTerm : String
  context : String

/-- The stop-word list of the manual fallback tokenizer. -/
def stopWords : List String :=
  [("please"), ("write"), ("prepare"), ("create"), ("make"), ("give"), ("provide"),
   ("show"), ("tell"), ("explain"), ("full"), ("complete"), ("comprehensive"),
   ("detailed"), ("report"), ("analysis"), ("how"), ("what"), ("when"), ("where"),
   ("why"), ("the"), ("and"), ("for"), ("with")]

/-- A JavaScript `\w` word character (ASCII). -/
def jsWordChar (ch : Char) : Bool :=
  ch.isAlphanum || ch = '_'

/-- The manual keyword extraction shared by the query-processing fallback
and the `Fallback` engine: lower-case, replace non-word non-space
characters by spaces, split on whitespace, keep tokens longer than two
characters that are not stop words. -/
def fallbackWords (q : String) : List String :=
  let replaced : List Char :=
    (jsToLower q).data.map (fun ch => if jsWordChar ch || jsWhitespace ch then ch else ' ')
  let parts := (splitPred jsWhitespace replaced).map (fun l => (⟨l⟩ : String))
  (parts.filter (fun w => 2 < w.length)).filter (fun w => !(stopWords.contains w))

/-- The deterministic fallback of `processSearchQuery`: up to three terms
built from the first tokens. -/
def fallbackProcessedQuery (originalQuery : String) : ProcessedQuery :=
  let words := fallbackWords originalQuery
  let searchTerms :=
    match words with
    | [] => [jsTake 50 originalQuery]
    | [w0] => [w0]
    | [w0, w1] => [w0, w0 ++ (" ") ++ w1]
    | w0 :: w1 :: w2 :: _ => [w0, w0 ++ (" ") ++ w1, w0 ++ (" ") ++ w2]
  { originalQuery := originalQuery,
    searchTerms := searchTerms,
    primaryTerm :=
      match words with
      | [] => ((jsSplitOn ' ' originalQuery).headD (""))
      | w0 :: _ => w0,
    context := joinSep (" ") ((words.drop 1).take 2) }

/-- `processSearchQuery`: pass short queries (≤ 30 characters and ≤ 3
words) through unchanged; otherwise ask the LLM for search terms (the call
result, or its failure, is supplied by the environment) and validate them,
falling back to the manual extraction on any failure or empty term list. -/
def processSearchQuery (query : String) (ai : Except String AiQueryResult) : ProcessedQuery :=
  let originalQuery := jsTrim query
  if originalQuery.length ≤ 30 ∧ (jsSplitOn ' ' originalQuery).length ≤ 3 then
    { originalQuery := originalQuery,
      searchTerms := [originalQuery],
      primaryTerm := ((jsSplitOn ' ' originalQuery).headD ("")),
      context := joinSep (" ") ((jsSplitOn ' ' originalQuery).drop 1) }
  else
    match ai with
    | .error _ => fallbackProcessedQuery originalQuery
    | .ok aiResult =>
      if aiResult.searchTerms.length = 0 then fallbackProcessedQuery originalQuery
      else
        { originalQuery := originalQuery,
          searchTerms := aiResult.searchTerms.take 4,
          primaryTerm :=
            if aiResult.primaryTerm = "" then aiResult.searchTerms.headD ("")
            else aiResult.primaryTerm,
          context := aiResult.context }

/-- Hexadecimal digit (upper case), for percent-encoding. -/
def hexDigitChar (n : Nat) : Char :=
  if n < 10 then Char.ofNat (48 + n) else Char.ofNat (55 + n)

/-- UTF-8 bytes of a character. -/
def utf8Bytes (ch : Char) : List Nat :=
  let n := ch.toNat
  if n < 128 then [n]
  else if n < 2048 then [192 + n / 64, 128 + n % 64]
  else if n < 65536 then [224 + n / 4096, 128 + (n / 64) % 64, 128 + n % 64]
  else [240 + n / 262144, 128 + (n / 4096) % 64, 128 + (n / 64) % 64, 128 + n % 64]

/-- A character `encodeURIComponent` leaves unescaped. -/
def uriUnreserved (ch : Char) : Bool :=
  ch.isAlphanum || ch = '-' || ch = '_' || ch = '.' || ch = '!' || ch = '~'
    || ch = '*' || ch = Char.ofNat 39 || ch = '(' || ch = ')'

/-- Model of `encodeURIComponent`. -/
def encodeURIComponent (s : String) : String :=
  ⟨(s.data.map (fun ch =>
      if uriUnreserved ch then [ch]
      else (utf8Bytes ch).flatMap (fun b => ['%', hexDigitChar (b / 16), hexDigitChar (b % 16)]))).flatten⟩

/-- The per-term results of the `Fallback` engine: direct Google and Bing
search links, plus finance/news suggestions for the primary term. -/
def fallbackResultsForTerm (query primaryTerm : String) (index : Nat) (term : String) :
    List SearchResult :=
  let google : SearchResult :=
    { title := ("Search \"") ++ term ++ ("\" on Google"),
      url := ("https://www.google.com/search?q=") ++ encodeURIComponent term,
      snippet := ("Direct search for \"") ++ term
        ++ ("\" on Google. This search term was extracted from your original query for better results."),
      source := ("Google Search") }
  let bing : SearchResult :=
    { title := ("Search \"") ++ term ++ ("\" on Bing"),
      url := ("https://www.bing.com/search?q=") ++ encodeURIComponent term,
      snippet := ("Direct search for \"") ++ term
        ++ ("\" on Bing. Alternative search engine for comprehensive results."),
      source := ("Bing Search") }
  let finance : List SearchResult :=
    if jsIncludes primaryTerm ("invest") || jsIncludes primaryTerm ("gold")
        || jsIncludes primaryTerm ("stock") then
      [{ title := ("Financial News: ") ++ term,
         url := ("https://finance.yahoo.com/search?p=") ++ encodeURIComponent term,
         snippet := ("Search for financial news and data about \"") ++ term
           ++ ("\" on Yahoo Finance."),
         source := ("Yahoo Finance") },
       { title := ("Market Data: ") ++ term,
         url := ("https://www.marketwatch.com/search?q=") ++ encodeURIComponent term,
         snippet := ("Find market data and analysis for \"") ++ term ++ ("\" on MarketWatch."),
         source := ("MarketWatch") }]
    else []
  let news : List SearchResult :=
    if jsIncludes primaryTerm ("news") || jsIncludes query ("2025")
        || jsIncludes query ("current") then
      [{ title := ("Latest News: ") ++ term,
         url := ("https://news.google.com/search?q=") ++ encodeURIComponent term,
         snippet := ("Find the latest news about \"") ++ term ++ ("\" on Google News."),
         source := ("Google News") }]
    else []
  [google, bing] ++ (if index = 0 then finance ++ news else [])

/-- The `Fallback` engine: synthesize direct search links from the manual
keyword extraction of the (unprocessed) query. -/
def fallbackGenerator (query : String) : List SearchResult :=
  let words := fallbackWords query
  let primaryTerm :=
    match words with
    | [] => ((jsSplitOn ' ' query).headD (""))
    | w0 :: _ => w0
  let searchTerms :=
    match words with
    | [] => [jsTake 30 query]
    | w0 :: _ =>
      ([w0, joinSep (" ") (words.take 2)]).filter (fun s => ¬ s = "")
  ((searchTerms.take 2).enum.map
    (fun p => fallbackResultsForTerm query primaryTerm p.1 p.2)).flatten

/-- The engines `performWebSearch` fans out to, in declaration order. -/
def searchEngines : List String :=
  [("Wikipedia"), ("Academic"), ("DuckDuckGo"), ("Bing"), ("Reddit"),
   ("Baidu"), ("Yandex"), ("News")]

/-- The aggregator environment: the parsed network response (or thrown
failure) of every live (term, engine) call, whether the aggregator-level
timeout fires for it, and the query-optimization LLM outcome. -/
structure WebEnv where
  response : String → String → Except String (List SearchResult)
  aggTimeout : String → String → Bool
  ai : Except String AiQueryResult

/-- The body of `searchEngineFetcher` before its catch-all: the `Fallback`
engine is synthesized locally, a known live engine performs its network
fetch and parse (the oracle — which may throw), and an unknown engine
returns the empty list. -/
def searchEngineFetcherBody (env : WebEnv) (query engine : String) :
    Except String (List SearchResult) :=
  if engine = ("Fallback") then .ok (fallbackGenerator query)
  else if searchEngines.contains engine then env.response query engine
  else .ok []

/-- `searchEngineFetcher`: the whole body is wrapped in `try/catch`; any
failure resolves to the empty list and is never re-thrown. -/
def searchEngineFetcher (env : WebEnv) (query engine : String) : List SearchResult :=
  match searchEngineFetcherBody env query engine with
  | .ok results => results
  | .error _ => []

/-- One engine leg of the per-term fan-out in `performWebSearch`:
`withTimeout(searchEngineFetcher(...))` inside `try/catch`, a timeout or
failure resolving to the empty list. -/
def searchPromise (env : WebEnv) (term engine : String) : List SearchResult :=
  match (if env.aggTimeout term engine then
      (Except.error ("Request timeout") : Except String (List SearchResult))
    else .ok (searchEngineFetcher env term engine)) with
  | .ok results => results
  | .error _ => []

/-- Project a search result to its citation. -/
def toCitation (r : SearchResult) : Citation :=
  { source := r.source, title := r.title, url := r.url }

/-- Do two results collide for de-duplication: same url, or same
lower-cased title with the same source engine. -/
def resultsCollide (a b : SearchResult) : Bool :=
  a.url == b.url || (jsToLower a.title == jsToLower b.title && a.source == b.source)

/-- The result de-duplication of `performWebSearch`: keep an element iff
the first index colliding with it is its own (first occurrence wins). -/
def dedupResults (l : List SearchResult) : List SearchResult :=
  (l.enum.filter (fun p => l.findIdx (fun r => resultsCollide r p.2) == p.1)).map Prod.snd

/-- The citation de-duplication: keep a citation iff the first index with
its url is its own. -/
def dedupCitations (l : List Citation) : List Citation :=
  (l.enum.filter (fun p => l.findIdx (fun c => c.url == p.2.url) == p.1)).map Prod.snd

/-- The relevance score used for ranking: two points per search term whose
lower-cased form appears in the title, one per term appearing in the
snippet. -/
def relevanceScore (searchTerms : List String) (r : SearchResult) : Nat :=
  searchTerms.foldl (fun score term =>
    let termLower := jsToLower term
    score + (if jsIncludes (jsToLower r.title) termLower then 2 else 0)
      + (if jsIncludes (jsToLower r.snippet) termLower then 1 else 0)) 0

/-- Stable insertion into a descending-sorted list: the inserted element
goes before the first element with a key not larger than its own, so
earlier-collected results keep their position among ties. -/
def insertDescend (key : SearchResult → Nat) (a : SearchResult) :
    List SearchResult → List SearchResult
  | [] => [a]
  | b :: l => if key a < key b then b :: insertDescend key a l else a :: b :: l

/-- The stable descending sort modelling `Array.prototype.sort` with the
comparator `bRelevance - aRelevance` (ECMAScript sorts are stable, and a
stable sort by a total preorder is unique, so insertion sort realizes it). -/
def sortByRelevanceDescend (key : SearchResult → Nat) : List SearchResult → List SearchResult
  | [] => []
  | a :: l => insertDescend key a (sortByRelevanceDescend key l)

/-- `formatSearchResults`: an element-wise projection onto the four fields
(the identity on this record). -/
def formatSearchResults (results : List SearchResult) : List SearchResult :=
  results.map (fun r =>
    { title := r.title, url := r.url, snippet := r.snippet, source := r.source })

/-- `performWebSearch`: short-circuit blank queries; process the query;
fan out every processed term (at most three) across all engines; project
citations off the collected results; fall back to the `Fallback` engine
when nothing was collected; de-duplicate, rank, format, and de-duplicate
citations by url. -/
def performWebSearch (query : String) (env : WebEnv) :
    Except String (List SearchResult × List Citation) :=
  if (jsTrim query).length = 0 then .ok ([], [])
  else
    let processedQuery := processSearchQuery query env.ai
    let collected :=
      ((processedQuery.searchTerms.take 3).map
        (fun term => (searchEngines.map (fun engine => searchPromise env term engine)).flatten)).flatten
    let allCitations := collected.map toCitation
    let allResults :=
      if collected.length = 0 then
        match (Except.ok (searchEngineFetcher env processedQuery.originalQuery ("Fallback"))
            : Except String (List SearchResult)) with
        | .ok fallbackResults => fallbackResults
        | .error _ => []
      else collected
    let uniqueResults := dedupResults allResults
    let sortedResults := sortByRelevanceDescend (relevanceScore processedQuery.searchTerms) uniqueResults
    let formattedResults := formatSearchResults sortedResults
    let uniqueCitations := dedupCitations allCitations
    .ok (formattedResults, uniqueCitations)

lemma enum_pairwise_fst_lt (l : List SearchResult) :
    l.enum.Pairwise (fun p q => p.1 < q.1) := by
  have h := List.pairwise_lt_range l.length
  rw [← List.enum_map_fst l, List.pairwise_map] at h
  exact h

lemma mem_enum_spec {l : List SearchResult} {p : Nat × SearchResult} (hp : p ∈ l.enum) :
    ∃ hlt : p.1 < l.length, l[p.1] = p.2 := by
  have := List.mem_enum_iff_getElem?.mp hp
  exact List.getElem?_eq_some_iff.mp this

lemma dedupResults_pairwise (l : List SearchResult) :
    (dedupResults l).Pairwise (fun a b => resultsCollide a b = false) := by
  rw [dedupResults, List.pairwise_map]
  have hlt : (l.enum.filter (fun p => l.findIdx (fun r => resultsCollide r p.2) == p.1)).Pairwise
      (fun p q => p.1 < q.1) :=
    (enum_pairwise_fst_lt l).sublist (List.filter_sublist l.enum)
  refine hlt.imp_of_mem ?_
  intro p q hp hq hlt2
  obtain ⟨hpmem, _⟩ := List.mem_filter.mp hp
  obtain ⟨hqmem, hqkeep⟩ := List.mem_filter.mp hq
  obtain ⟨hplen, hpget⟩ := mem_enum_spec hpmem
  obtain ⟨hqlen, hqget⟩ := mem_enum_spec hqmem
  have hqidx : l.findIdx (fun r => resultsCollide r q.2) = q.1 := by
    simpa using hqkeep
  have hq2 := (List.findIdx_eq hqlen).mp hqidx
  have := hq2.2 p.1 hlt2
  rwa [hpget] at this

lemma dedupCitations_pairwise (l : List Citation) :
    (dedupCitations l).Pairwise (fun a b => ¬ a.url = b.url) := by
  rw [dedupCitations, List.pairwise_map]
  have henum : l.enum.Pairwise (fun p q : Nat × Citation => p.1 < q.1) := by
    have h := List.pairwise_lt_range l.length
    rw [← List.enum_map_fst l, List.pairwise_map] at h
    exact h
  have hlt : (l.enum.filter (fun p => l.findIdx (fun c => c.url == p.2.url) == p.1)).Pairwise
      (fun p q => p.1 < q.1) :=
    henum.sublist (List.filter_sublist l.enum)
  refine hlt.imp_of_mem ?_
  intro p q hp hq hlt2
  obtain ⟨hpmem, _⟩ := List.mem_filter.mp hp
  obtain ⟨hqmem, hqkeep⟩ := List.mem_filter.mp hq
  have hpspec := List.getElem?_eq_some_iff.mp (List.mem_enum_iff_getElem?.mp hpmem)
  have hqspec := List.getElem?_eq_some_iff.mp (List.mem_enum_iff_getElem?.mp hqmem)
  obtain ⟨hplen, hpget⟩ := hpspec
  obtain ⟨hqlen, hqget⟩ := hqspec
  have hqidx : l.findIdx (fun c => c.url == q.2.url) = q.1 := by
    simpa using hqkeep
  have hq2 := (List.findIdx_eq hqlen).mp hqidx
  have h3 := hq2.2 p.1 hlt2
  rw [hpget] at h3
  simpa using h3

lemma insertDescend_perm (key : SearchResult → Nat) (a : SearchResult) (l : List SearchResult) :
    (insertDescend key a l).Perm (a :: l) := by
  induction l with
  | nil => exact List.Perm.refl _
  | cons b t ih =>
    rw [insertDescend]
    by_cases h : key a < key b
    · rw [if_pos h]
      exact (ih.cons b).trans (List.Perm.swap a b t)
    · rw [if_neg h]

lemma sortByRelevanceDescend_perm (key : SearchResult → Nat) (l : List SearchResult) :
    (sortByRelevanceDescend key l).Perm l := by
  induction l with
  | nil => exact List.Perm.refl _
  | cons a t ih =>
    rw [sortByRelevanceDescend]
    exact (insertDescend_perm key a _).trans (ih.cons a)

lemma formatSearchResults_id (rs : List SearchResult) : formatSearchResults rs = rs := by
  simp [formatSearchResults]

lemma resultsCollide_false_iff (a b : SearchResult) :
    resultsCollide a b = false ↔
      (¬ a.url = b.url ∧ ¬ (jsToLower a.title = jsToLower b.title ∧ a.source = b.source)) := by
  simp [resultsCollide, not_and, and_comm]
  tauto

lemma dedupResults_first_occurrence (l : List SearchResult) :
    dedupResults l =
      (l.enum.filter (fun p => (l.take p.1).all (fun r => !resultsCollide r p.2))).map Prod.snd := by
  rw [dedupResults]
  congr 1
  apply List.filter_congr
  intro p hp
  obtain ⟨hplen, hpget⟩ := mem_enum_spec hp
  rw [Bool.eq_iff_iff]
  constructor
  · intro hkeep
    have hidx : l.findIdx (fun r => resultsCollide r p.2) = p.1 := by simpa using hkeep
    have h2 := (List.findIdx_eq hplen).mp hidx
    rw [List.all_eq_true]
    intro r hr
    obtain ⟨j, hj, rfl⟩ := List.mem_take_iff_getElem.mp hr
    have hjlt : j < p.1 := lt_of_lt_of_le hj inf_le_left
    have := h2.2 j hjlt
    simp [this]
  · intro hall
    have hall2 := List.all_eq_true.mp hall
    have hself : resultsCollide l[p.1] p.2 = true := by
      rw [hpget]
      simp [resultsCollide]
    refine Nat.beq_eq_true_eq _ _ ▸ (List.findIdx_eq hplen).mpr ⟨hself, ?_⟩
    intro j hj
    have hjl : j < l.length := lt_trans hj hplen
    have hmem : l[j] ∈ l.take p.1 :=
      List.mem_take_iff_getElem.mpr ⟨j, lt_inf_iff.mpr ⟨hj, hjl⟩, rfl⟩
    have := hall2 _ hmem
    simpa using this

/-- C2: the aggregator never throws — for every query and every behaviour
of the network, parsers and LLM it resolves to a `{results, citations}`
value; a thrown engine failure resolves to that engine's empty result list,
and a fired aggregator-level timeout does likewise. -/
theorem performWebSearch_never_throws :
    (∀ (query : String) (env : WebEnv),
      ∃ out, performWebSearch query env = .ok out) ∧
    (∀ (env : WebEnv) (term engine : String) (e : String),
      engine ∈ searchEngines → env.response term engine = .error e →
      searchEngineFetcher env term engine = []) ∧
    (∀ (env : WebEnv) (term engine : String),
      env.aggTimeout term engine = true → searchPromise env term engine = []) := by
  refine ⟨?_, ?_, ?_⟩
  · intro query env
    by_cases h : (jsTrim query).length = 0
    · exact ⟨([], []), by simp [performWebSearch, h]⟩
    · unfold performWebSearch
      rw [if_neg h]
      exact ⟨_, rfl⟩
  · intro env term engine e hmem herr
    have hneq : ¬ engine = ("Fallback") := by
      simp only [searchEngines, List.mem_cons, List.not_mem_nil, or_false] at hmem
      rcases hmem with rfl | rfl | rfl | rfl | rfl | rfl | rfl | rfl <;> decide
    have hcont : searchEngines.contains engine = true := List.elem_eq_true_of_mem hmem
    rw [searchEngineFetcher, searchEngineFetcherBody, if_neg hneq, if_pos hcont, herr]
  · intro env term engine htime
    rw [searchPromise, if_pos htime]

/-- C2 witness: with every engine throwing and the LLM failing, a query
still resolves to a value (the synthesized fallback links), and a failing
engine leg yields the empty list. -/
theorem performWebSearch_never_throws_witness :
    (∃ out, performWebSearch ("gold price today")
      ⟨fun _ _ => .error ("network down"), fun _ _ => false, .error ("llm down")⟩ = .ok out) ∧
    searchEngineFetcher
      ⟨fun _ _ => .error ("network down"), fun _ _ => false, .error ("llm down")⟩
      ("gold price today") ("Bing") = [] ∧
    searchPromise ⟨fun _ _ => .error ("network down"), fun _ _ => true, .error ("llm down")⟩
      ("gold") ("News") = [] := by
  refine ⟨performWebSearch_never_throws.1 ("gold price today")
      ⟨fun _ _ => .error ("network down"), fun _ _ => false, .error ("llm down")⟩,
    performWebSearch_never_throws.2.1
      ⟨fun _ _ => .error ("network down"), fun _ _ => false, .error ("llm down")⟩
      ("gold price today") ("Bing") ("network down") (by decide) rfl,
    performWebSearch_never_throws.2.2
      ⟨fun _ _ => .error ("network down"), fun _ _ => true, .error ("llm down")⟩
      ("gold") ("News") rfl⟩

set_option maxHeartbeats 1600000 in
/-- C6: for every input and environment the aggregator's citations carry
pairwise distinct urls, its results are pairwise distinct both by url and
by (lower-cased title, source) pair, and the result de-duplication keeps
exactly the first occurrence of each colliding family (an element survives
iff nothing before it collides with it). -/
theorem performWebSearch_dedup (query : String) (env : WebEnv)
    (out : List SearchResult × List Citation)
    (h : performWebSearch query env = .ok out) :
    out.2.Pairwise (fun c d => ¬ c.url = d.url) ∧
    out.1.Pairwise (fun a b => ¬ a.url = b.url ∧
      ¬ (jsToLower a.title = jsToLower b.title ∧ a.source = b.source)) ∧
    (∀ l : List SearchResult, dedupResults l =
      (l.enum.filter (fun p => (l.take p.1).all (fun r => !resultsCollide r p.2))).map
        Prod.snd) := by
  have hsym : ∀ {a b : SearchResult},
      (¬ a.url = b.url ∧ ¬ (jsToLower a.title = jsToLower b.title ∧ a.source = b.source)) →
      (¬ b.url = a.url ∧ ¬ (jsToLower b.title = jsToLower a.title ∧ b.source = a.source)) := by
    intro a b hab
    exact ⟨fun hu => hab.1 hu.symm, fun hts => hab.2 ⟨hts.1.symm, hts.2.symm⟩⟩
  by_cases hblank : (jsTrim query).length = 0
  · simp only [performWebSearch, if_pos hblank] at h
    obtain rfl := Except.ok.inj h
    exact ⟨List.Pairwise.nil, List.Pairwise.nil, dedupResults_first_occurrence⟩
  · simp only [performWebSearch, if_neg hblank] at h
    obtain rfl := Except.ok.inj h
    refine ⟨dedupCitations_pairwise _, ?_, dedupResults_first_occurrence⟩
    show (formatSearchResults _).Pairwise _
    rw [formatSearchResults_id]
    exact (List.Perm.pairwise_iff hsym (sortByRelevanceDescend_perm _ _)).mpr
      ((dedupResults_pairwise _).imp (fun {a b} hab => (resultsCollide_false_iff a b).mp hab))

/-- C6 witness: every engine returning the same duplicated result for the
term, the aggregator returns that result and its citation exactly once. -/
theorem performWebSearch_dedup_witness :
    performWebSearch ("gold")
      ⟨fun _ e => if e = ("Wikipedia")
          then .ok [⟨("T"), ("u"), ("s"), ("S")⟩, ⟨("T"), ("u"), ("s"), ("S")⟩] else .ok [],
        fun _ _ => false, .error ("llm down")⟩
      = .ok ([⟨("T"), ("u"), ("s"), ("S")⟩], [⟨("S"), ("T"), ("u")⟩]) ∧
    ([⟨("T"), ("u"), ("s"), ("S")⟩] : List SearchResult).Pairwise
      (fun a b => ¬ a.url = b.url ∧
        ¬ (jsToLower a.title = jsToLower b.title ∧ a.source = b.source)) ∧
    ([⟨("S"), ("T"), ("u")⟩] : List Citation).Pairwise (fun c d => ¬ c.url = d.url) := by
  have heq : performWebSearch ("gold")
      ⟨fun _ e => if e = ("Wikipedia")
          then .ok [⟨("T"), ("u"), ("s"), ("S")⟩, ⟨("T"), ("u"), ("s"), ("S")⟩] else .ok [],
        fun _ _ => false, .error ("llm down")⟩
      = .ok ([⟨("T"), ("u"), ("s"), ("S")⟩], [⟨("S"), ("T"), ("u")⟩]) := by rfl
  have h := performWebSearch_dedup ("gold")
    ⟨fun _ e => if e = ("Wikipedia")
        then .ok [⟨("T"), ("u"), ("s"), ("S")⟩, ⟨("T"), ("u"), ("s"), ("S")⟩] else .ok [],
      fun _ _ => false, .error ("llm down")⟩
    ([⟨("T"), ("u"), ("s"), ("S")⟩], [⟨("S"), ("T"), ("u")⟩]) heq
  exact ⟨heq, h.2.1, h.1⟩
